import Mathlib

/-!
# Sudoku solver: validator and backtracking search

A shallow embedding of the core of `src/mainwindow.cpp` (the functions
`isValidPuzzle`, `isValidRowOrColumn`, `isValidSubGrid`, `solveSudoku`,
`findUnassignedCell` and `isValid`) together with the properties of the
specification that concern them.

Conventions of the embedding.

* A `std::vector<std::vector<int>>` is a `List (List Int)`.  Every element
  access `v[i]` is checked: an index outside the vector is undefined
  behaviour in C++ and is the `none` / `fault` branch here.
* Sizes, loop counters and coordinates are `Nat`: in the source they are
  `int`s that only take the values `0 .. size + sqrt size`, and for a size
  that is a perfect square below `2^31` none of these sums leaves the range
  of `int` (the largest such square is `46340^2`, and `46340^2 + 46340 <
  2^31`), so no wrap-around has to be modelled.
* A `for (int i = 0; i < n; i++)` loop is a recursion over `List.range n`;
  the loop `for (num = 1; num <= size; num++)` is a recursion over
  `List.range' 1 size`.
* The two loops of `isValidPuzzle` that advance by `subGridSize` carry a bound
  on the number of iterations left, started at `gridSize`: a stride of at
  least one leaves the loop within `gridSize` iterations, and a stride of zero
  (a loop that never ends) is a fault.  A division by zero is a fault too.
* `std::sqrt` applied to an `int` and converted back to `int` is the truncated
  square root `intSqrt`; it is exact on perfect squares.
* The recursion of `solveSudoku` carries a fuel argument that bounds the
  recursion depth; the theorems show that fuel larger than the number of
  blank cells is always enough.
-/

namespace Sudoku

/-- The puzzle matrix, `std::vector<std::vector<int>>`. -/
abbrev Grid := List (List Int)

/-- Search for the truncated square root from `k` downwards. -/
def intSqrtFrom (n : Nat) : Nat → Nat
  | 0 => 0
  | k + 1 => if (k + 1) * (k + 1) ≤ n then k + 1 else intSqrtFrom n k

/-- The conversion `int s = std::sqrt(n)` for `n ≥ 0`: the square root of `n`
truncated towards zero (exact when `n` is a perfect square). -/
def intSqrt (n : Nat) : Nat := intSqrtFrom n n

/-- The read `grid[i][j]`; `none` when `i` or `j` is out of bounds. -/
def readCell (grid : Grid) (i j : Nat) : Option Int :=
  match grid[i]? with
  | none => none
  | some cells => cells[j]?

/-- The assignment `grid[i][j] = v`; `none` when `i` or `j` is out of bounds. -/
def writeCell (grid : Grid) (i j : Nat) (v : Int) : Option Grid :=
  match grid[i]? with
  | none => none
  | some cells => if j < cells.length then some (grid.set i (cells.set j v)) else none

/-- Outcome of one duplicate test against a presence array. -/
inductive Seen where
  /-- the access `check[value]` is out of bounds -/
  | fault
  /-- the value was already marked: the caller does `return false` -/
  | duplicate
  /-- no duplicate: the scan goes on with this presence array -/
  | next (check : List Bool)
deriving DecidableEq, Repr

/-- The block shared by `isValidRowOrColumn` (lines 147-153 and 156-162) and
`isValidSubGrid` (lines 173-179):
`if (value != 0) { if (check[value]) return false; check[value] = true; }`. -/
def checkValue (check : List Bool) (value : Int) : Seen :=
  if value ≠ 0 then
    if value < 0 then Seen.fault
    else
      match check[value.toNat]? with
      | none => Seen.fault
      | some true => Seen.duplicate
      | some false => Seen.next (check.set value.toNat true)
  else Seen.next check

/-- The loop of `isValidRowOrColumn` over the remaining values of `i`. -/
def isValidRowOrColumnLoop (puzzle : Grid) (index : Nat) :
    List Nat → List Bool → List Bool → Option Bool
  | [], _, _ => some true
  | i :: rest, rowCheck, colCheck =>
    match readCell puzzle index i with
    | none => none
    | some rowValue =>
      match checkValue rowCheck rowValue with
      | Seen.fault => none
      | Seen.duplicate => some false
      | Seen.next rowCheck1 =>
        match readCell puzzle i index with
        | none => none
        | some colValue =>
          match checkValue colCheck colValue with
          | Seen.fault => none
          | Seen.duplicate => some false
          | Seen.next colCheck1 => isValidRowOrColumnLoop puzzle index rest rowCheck1 colCheck1

/-- `MainWindow::isValidRowOrColumn` (the member `gridSize` is a parameter). -/
def isValidRowOrColumn (gridSize : Nat) (puzzle : Grid) (index : Nat) : Option Bool :=
  isValidRowOrColumnLoop puzzle index (List.range gridSize)
    (List.replicate (gridSize + 1) false) (List.replicate (gridSize + 1) false)

/-- The inner loop (over `j`) of `isValidSubGrid`, for a fixed `i`. -/
def isValidSubGridInner (puzzle : Grid) (startRow startCol i : Nat) :
    List Nat → List Bool → Seen
  | [], check => Seen.next check
  | j :: rest, check =>
    match readCell puzzle (startRow + i) (startCol + j) with
    | none => Seen.fault
    | some value =>
      match checkValue check value with
      | Seen.fault => Seen.fault
      | Seen.duplicate => Seen.duplicate
      | Seen.next check1 => isValidSubGridInner puzzle startRow startCol i rest check1

/-- The outer loop (over `i`) of `isValidSubGrid`. -/
def isValidSubGridOuter (puzzle : Grid) (startRow startCol subGridSize : Nat) :
    List Nat → List Bool → Option Bool
  | [], _ => some true
  | i :: rest, check =>
    match isValidSubGridInner puzzle startRow startCol i (List.range subGridSize) check with
    | Seen.fault => none
    | Seen.duplicate => some false
    | Seen.next check1 => isValidSubGridOuter puzzle startRow startCol subGridSize rest check1

/-- `MainWindow::isValidSubGrid` (the member `gridSize` is a parameter). -/
def isValidSubGrid (gridSize : Nat) (puzzle : Grid) (startRow startCol subGridSize : Nat) :
    Option Bool :=
  isValidSubGridOuter puzzle startRow startCol subGridSize (List.range subGridSize)
    (List.replicate (gridSize + 1) false)

/-- The first loop of `isValidPuzzle`: every index `i` through `isValidRowOrColumn`. -/
def isValidPuzzleLines (gridSize : Nat) (puzzle : Grid) : List Nat → Option Bool
  | [] => some true
  | i :: rest =>
    match isValidRowOrColumn gridSize puzzle i with
    | none => none
    | some false => some false
    | some true => isValidPuzzleLines gridSize puzzle rest

/-- The loop `for (col = ..; col < gridSize; col += subGridSize)` of `isValidPuzzle`.
The first argument bounds the number of iterations left; a stride of zero
would never leave the loop and is a fault. -/
def isValidPuzzleCols (gridSize : Nat) (puzzle : Grid) (row subGridSize : Nat) :
    Nat → Nat → Option Bool
  | 0, col => if col < gridSize then none else some true
  | fuel + 1, col =>
    if col < gridSize then
      match isValidSubGrid gridSize puzzle row col subGridSize with
      | none => none
      | some false => some false
      | some true =>
        if subGridSize = 0 then none
        else isValidPuzzleCols gridSize puzzle row subGridSize fuel (col + subGridSize)
    else some true

/-- The loop `for (row = ..; row < gridSize; row += subGridSize)` of `isValidPuzzle`. -/
def isValidPuzzleRows (gridSize : Nat) (puzzle : Grid) (subGridSize : Nat) :
    Nat → Nat → Option Bool
  | 0, row => if row < gridSize then none else some true
  | fuel + 1, row =>
    if row < gridSize then
      match isValidPuzzleCols gridSize puzzle row subGridSize gridSize 0 with
      | none => none
      | some false => some false
      | some true =>
        if subGridSize = 0 then none
        else isValidPuzzleRows gridSize puzzle subGridSize fuel (row + subGridSize)
    else some true

/-- `MainWindow::isValidPuzzle` (the member `gridSize` is a parameter). -/
def isValidPuzzle (gridSize : Nat) (puzzle : Grid) : Option Bool :=
  match isValidPuzzleLines gridSize puzzle (List.range gridSize) with
  | none => none
  | some false => some false
  | some true =>
    isValidPuzzleRows gridSize puzzle (intSqrt gridSize) gridSize 0

/-- The inner loop (over `j`) of `findUnassignedCell`, for a fixed `i`:
`some (some j)` is the column of the first blank found. -/
def findUnassignedCellCols (grid : Grid) (i : Nat) : List Nat → Option (Option Nat)
  | [] => some none
  | j :: rest =>
    match readCell grid i j with
    | none => none
    | some v => if v = 0 then some (some j) else findUnassignedCellCols grid i rest

/-- The outer loop (over `i`) of `findUnassignedCell`. -/
def findUnassignedCellRows (grid : Grid) (size : Nat) : List Nat → Option (Option (Nat × Nat))
  | [] => some none
  | i :: rest =>
    match findUnassignedCellCols grid i (List.range size) with
    | none => none
    | some (some j) => some (some (i, j))
    | some none => findUnassignedCellRows grid size rest

/-- `MainWindow::findUnassignedCell`: `some (some (row, col))` when it returns
true with the out-parameters set, `some none` when it returns false. -/
def findUnassignedCell (grid : Grid) (size : Nat) : Option (Option (Nat × Nat)) :=
  findUnassignedCellRows grid size (List.range size)

/-- The first loop of `isValid`: the combined scan of row `row` and column `col`. -/
def isValidLines (grid : Grid) (row col : Nat) (num : Int) : List Nat → Option Bool
  | [] => some true
  | i :: rest =>
    match readCell grid row i with
    | none => none
    | some a =>
      if a = num then some false
      else
        match readCell grid i col with
        | none => none
        | some b => if b = num then some false else isValidLines grid row col num rest

/-- The inner loop (over `j`) of the block scan of `isValid`, for a fixed `i`. -/
def isValidBlockInner (grid : Grid) (startRow startCol : Nat) (num : Int) (i : Nat) :
    List Nat → Option Bool
  | [] => some true
  | j :: rest =>
    match readCell grid (startRow + i) (startCol + j) with
    | none => none
    | some v => if v = num then some false else isValidBlockInner grid startRow startCol num i rest

/-- The outer loop (over `i`) of the block scan of `isValid`. -/
def isValidBlockOuter (grid : Grid) (startRow startCol : Nat) (num : Int) (subgridSize : Nat) :
    List Nat → Option Bool
  | [] => some true
  | i :: rest =>
    match isValidBlockInner grid startRow startCol num i (List.range subgridSize) with
    | none => none
    | some false => some false
    | some true => isValidBlockOuter grid startRow startCol num subgridSize rest

/-- `MainWindow::isValid`.  The division by `subgridSize` is a fault when
`subgridSize` is zero. -/
def isValid (grid : Grid) (row col : Nat) (num : Int) (size : Nat) : Option Bool :=
  let subgridSize := intSqrt size
  match isValidLines grid row col num (List.range size) with
  | none => none
  | some false => some false
  | some true =>
    if subgridSize = 0 then none
    else
      let startRow := row / subgridSize * subgridSize
      let startCol := col / subgridSize * subgridSize
      isValidBlockOuter grid startRow startCol num subgridSize (List.range subgridSize)

/-- Result of a call of `solveSudoku`. -/
inductive SolveResult where
  /-- the call returned `solved`, leaving the matrix as `grid` -/
  | done (solved : Bool) (grid : Grid)
  /-- an access was out of bounds, or a division by zero -/
  | fault
  /-- the recursion went deeper than the fuel allows -/
  | outOfFuel
deriving DecidableEq, Repr

/-- The candidate loop `for (num = 1; num <= size; num++)` of `solveSudoku`
over the remaining candidates; `recurse` is the recursive call
`solveSudoku(grid, size)`. -/
def solveSudokuLoop (recurse : Grid → SolveResult) (size row col : Nat) :
    List Nat → Grid → SolveResult
  | [], grid => SolveResult.done false grid
  | num :: rest, grid =>
    match isValid grid row col (num : Int) size with
    | none => SolveResult.fault
    | some false => solveSudokuLoop recurse size row col rest grid
    | some true =>
      match writeCell grid row col (num : Int) with
      | none => SolveResult.fault
      | some placed =>
        match recurse placed with
        | SolveResult.fault => SolveResult.fault
        | SolveResult.outOfFuel => SolveResult.outOfFuel
        | SolveResult.done true solvedGrid => SolveResult.done true solvedGrid
        | SolveResult.done false back =>
          match writeCell back row col 0 with
          | none => SolveResult.fault
          | some undone => solveSudokuLoop recurse size row col rest undone

/-- `MainWindow::solveSudoku`; the first argument bounds the recursion depth. -/
def solveSudoku : Nat → Grid → Nat → SolveResult
  | 0, _, _ => SolveResult.outOfFuel
  | fuel + 1, grid, size =>
    match findUnassignedCell grid size with
    | none => SolveResult.fault
    | some none => SolveResult.done true grid
    | some (some (row, col)) =>
      solveSudokuLoop (fun g => solveSudoku fuel g size) size row col (List.range' 1 size) grid

/-! ## Vocabulary of the specification -/

/-- The value of cell `(i, j)`; `0` (blank) outside the matrix. -/
def cell (g : Grid) (i j : Nat) : Int := (readCell g i j).getD 0

/-- The matrix `g` has `N` rows of `N` cells each. -/
def IsGrid (N : Nat) (g : Grid) : Prop := g.length = N ∧ ∀ cells ∈ g, cells.length = N

/-- Every cell holds a value in `0 .. N`. -/
def InRange (N : Nat) (g : Grid) : Prop :=
  ∀ i, i < N → ∀ j, j < N → 0 ≤ cell g i j ∧ cell g i j ≤ (N : Int)

/-- Number of blank cells of the matrix. -/
def blankCount (g : Grid) : Nat := (g.map fun cells => cells.count 0).sum

/-- No cell is blank. -/
def Complete (N : Nat) (g : Grid) : Prop := ∀ i, i < N → ∀ j, j < N → cell g i j ≠ 0

/-- Every cell holds a value in `1 .. N`. -/
def Filled (N : Nat) (g : Grid) : Prop :=
  ∀ i, i < N → ∀ j, j < N → 1 ≤ cell g i j ∧ cell g i j ≤ (N : Int)

/-- The grid `S` agrees with `P` on every filled cell of `P`. -/
def Extends (N : Nat) (P S : Grid) : Prop :=
  ∀ i, i < N → ∀ j, j < N → cell P i j ≠ 0 → cell S i j = cell P i j

/-- The coordinates of row `r`. -/
def rowGroup (N r : Nat) : List (Nat × Nat) := (List.range N).map fun c => (r, c)

/-- The coordinates of column `c`. -/
def colGroup (N c : Nat) : List (Nat × Nat) := (List.range N).map fun r => (r, c)

/-- The coordinates of the `s × s` sub-grid in block row `br` and block column `bc`. -/
def blockGroup (s br bc : Nat) : List (Nat × Nat) :=
  (List.range s).flatMap fun i => (List.range s).map fun j => (br * s + i, bc * s + j)

/-- The constraint groups of an `N × N` puzzle: `N` rows, `N` columns and the
sub-grids of side `sqrt N`. -/
def groups (N : Nat) : List (List (Nat × Nat)) :=
  (List.range N).map (rowGroup N) ++ (List.range N).map (colGroup N) ++
    (List.range (intSqrt N)).flatMap fun br => (List.range (intSqrt N)).map fun bc =>
      blockGroup (intSqrt N) br bc

/-- Two different cells of the group hold the same non-zero value. -/
def HasDuplicate (g : Grid) (G : List (Nat × Nat)) : Prop :=
  ∃ p, p ∈ G ∧ ∃ q, q ∈ G ∧ p ≠ q ∧ cell g p.1 p.2 ≠ 0 ∧ cell g p.1 p.2 = cell g q.1 q.2

/-- Structurally valid: no row, column or sub-grid holds a non-zero value twice. -/
def StructurallyValid (N : Nat) (g : Grid) : Prop := ∀ G, G ∈ groups N → ¬ HasDuplicate g G

/-- The values of the group, in order, are a permutation of `1 .. N`. -/
def IsPermutation (N : Nat) (g : Grid) (G : List (Nat × Nat)) : Prop :=
  List.Perm (G.map fun p => cell g p.1 p.2) ((List.range' 1 N).map Int.ofNat)

/-- A solved `N × N` grid: every cell in `1 .. N` and every row, column and
sub-grid a permutation of `1 .. N`. -/
def IsSolution (N : Nat) (S : Grid) : Prop :=
  IsGrid N S ∧ Filled N S ∧ ∀ G, G ∈ groups N → IsPermutation N S G

/-- The puzzle has a completion. -/
def Solvable (N : Nat) (P : Grid) : Prop := ∃ S, IsSolution N S ∧ Extends N P S

/-- The values `vs` can be scanned against the presence array `check` without
meeting a duplicate: no non-zero value occurs twice and none is marked yet. -/
def Fresh (check : List Bool) (vs : List Int) : Prop :=
  vs.Pairwise (fun a b => ¬ (a = b ∧ a ≠ 0)) ∧
    ∀ v, v ∈ vs → v ≠ 0 → check[v.toNat]? = some false

/-- No non-zero value occurs at two positions of the list of values of the group. -/
def DistinctValues (g : Grid) (G : List (Nat × Nat)) : Prop :=
  (G.map fun p => cell g p.1 p.2).Pairwise (fun a b => ¬ (a = b ∧ a ≠ 0))

/-- A completion of `g`: a grid with every cell in `1 .. N` and no duplicate
in any group that agrees with `g` on the filled cells of `g`. -/
def Completion (N : Nat) (g S : Grid) : Prop :=
  Filled N S ∧ StructurallyValid N S ∧ Extends N g S

/-- What a successful search leaves behind, relative to the grid it started from. -/
def GoodResult (N : Nat) (g R : Grid) : Prop :=
  IsGrid N R ∧ Complete N R ∧ Extends N g R ∧
    (StructurallyValid N g → StructurallyValid N R) ∧ (InRange N g → Filled N R)

/-- The contract of a call of `solveSudoku` on the grid `g`. -/
def SolveSpec (N : Nat) (g : Grid) (res : SolveResult) : Prop :=
  ∃ b R, res = SolveResult.done b R ∧ (b = true → GoodResult N g R) ∧
    (b = false → R = g ∧ ∀ S, ¬ Completion N g S)

/-- Row-major order on cell coordinates: `(i, j)` comes before `(r, c)`. -/
def Before (i j r c : Nat) : Prop := i < r ∨ (i = r ∧ j < c)

/-- Lexicographic order on `N × N` grids read in row-major order: the grids
agree on every cell, or at the first cell where they differ `R` holds the
smaller value. -/
def LexLe (N : Nat) (R S : Grid) : Prop :=
  (∀ i, i < N → ∀ j, j < N → cell R i j = cell S i j) ∨
    ∃ r c, r < N ∧ c < N ∧ cell R r c < cell S r c ∧
      ∀ i j, i < N → j < N → Before i j r c → cell R i j = cell S i j

/-! ## Decision procedures and example grids -/

instance (N : Nat) (g : Grid) : Decidable (IsGrid N g) :=
  inferInstanceAs (Decidable (g.length = N ∧ ∀ cells ∈ g, cells.length = N))

instance (N : Nat) (g : Grid) : Decidable (InRange N g) :=
  inferInstanceAs (Decidable (∀ i, i < N → ∀ j, j < N → 0 ≤ cell g i j ∧ cell g i j ≤ (N : Int)))

instance (N : Nat) (g : Grid) : Decidable (Complete N g) :=
  inferInstanceAs (Decidable (∀ i, i < N → ∀ j, j < N → cell g i j ≠ 0))

instance (N : Nat) (g : Grid) : Decidable (Filled N g) :=
  inferInstanceAs (Decidable (∀ i, i < N → ∀ j, j < N → 1 ≤ cell g i j ∧ cell g i j ≤ (N : Int)))

instance (N : Nat) (P S : Grid) : Decidable (Extends N P S) :=
  inferInstanceAs (Decidable (∀ i, i < N → ∀ j, j < N → cell P i j ≠ 0 → cell S i j = cell P i j))

instance (g : Grid) (G : List (Nat × Nat)) : Decidable (HasDuplicate g G) :=
  inferInstanceAs (Decidable (∃ p, p ∈ G ∧ ∃ q, q ∈ G ∧ p ≠ q ∧ cell g p.1 p.2 ≠ 0 ∧
    cell g p.1 p.2 = cell g q.1 q.2))

instance (N : Nat) (g : Grid) : Decidable (StructurallyValid N g) :=
  inferInstanceAs (Decidable (∀ G, G ∈ groups N → ¬ HasDuplicate g G))

instance (N : Nat) (g : Grid) (G : List (Nat × Nat)) : Decidable (IsPermutation N g G) :=
  inferInstanceAs (Decidable (List.Perm (G.map fun p : Nat × Nat => cell g p.1 p.2)
    ((List.range' 1 N).map Int.ofNat)))

instance (N : Nat) (S : Grid) : Decidable (IsSolution N S) :=
  inferInstanceAs (Decidable (IsGrid N S ∧ Filled N S ∧ ∀ G, G ∈ groups N → IsPermutation N S G))

/-- The 4 × 4 puzzle of the specification, row-major `[1,0,0,4, 0,0,1,0, 0,1,0,0, 4,0,0,1]`. -/
def example4 : Grid := [[1, 0, 0, 4], [0, 0, 1, 0], [0, 1, 0, 0], [4, 0, 0, 1]]
/-- The grid that `solveSudoku` produces from `example4`. -/
def example4Solved : Grid := [[1, 2, 3, 4], [3, 4, 1, 2], [2, 1, 4, 3], [4, 3, 2, 1]]
/-- A 4 × 4 grid with two `1`s in its first row. -/
def rowDuplicate4 : Grid := [[1, 0, 1, 0], [0, 0, 0, 0], [0, 0, 0, 0], [0, 0, 0, 0]]
/-- A structurally valid 4 × 4 puzzle without completion: the last cell of the
first row can take no value. -/
def unsolvable4 : Grid := [[1, 2, 3, 0], [0, 0, 0, 4], [0, 0, 0, 0], [0, 0, 0, 0]]
/-- The 9 × 9 grid whose 81 cells are all blank. -/
def blank9 : Grid := List.replicate 9 (List.replicate 9 0)
/-- A solved 9 × 9 grid (a completion of the blank grid). -/
def blank9Solved : Grid :=
  [[1, 2, 3, 4, 5, 6, 7, 8, 9],
   [4, 5, 6, 7, 8, 9, 1, 2, 3],
   [7, 8, 9, 1, 2, 3, 4, 5, 6],
   [2, 1, 4, 3, 6, 5, 8, 9, 7],
   [3, 6, 5, 8, 9, 7, 2, 1, 4],
   [8, 9, 7, 2, 1, 4, 3, 6, 5],
   [5, 3, 1, 6, 4, 2, 9, 7, 8],
   [6, 4, 2, 9, 7, 8, 5, 3, 1],
   [9, 7, 8, 5, 3, 1, 6, 4, 2]]

/-- Number of given (non-zero) cells of the matrix. -/
def givenCount (g : Grid) : Nat := (g.map fun cells => cells.countP fun v => v ≠ 0).sum

/-! ## The window around the core -/

/-- The text of a cell widget as far as `on_solveButton_clicked` looks at it:
`none` when `text().isEmpty()`, otherwise `some v` with `v = text().toInt()`. -/
abbrev CellText := Option Int

/-- The members of `MainWindow` that the handlers read and write: `gridSize`
and the matrix `grid` of cell widgets (here: of their texts). -/
structure MainWindow where
  /-- the member `int gridSize` -/
  gridSize : Nat
  /-- the member `grid`, one text per `QLineEdit` -/
  grid : List (List CellText)
deriving DecidableEq, Repr

/-- `MainWindow::createGrid`: sets `gridSize`, clears `grid` and fills it with
`size` rows of `size` empty cells. -/
def createGrid (size : Nat) : MainWindow :=
  { gridSize := size, grid := List.replicate size (List.replicate size none) }

/-- The constructor `MainWindow::MainWindow`, which calls `createGrid(4)`. -/
def mainWindow : MainWindow := createGrid 4

/-- `MainWindow::on_sizeComboBox_currentIndexChanged`. -/
def on_sizeComboBox_currentIndexChanged (_w : MainWindow) (index : Int) : MainWindow :=
  if index = 0 then createGrid 4 else createGrid 9

/-- The access `grid[i][j]` to a cell widget; `none` when out of bounds. -/
def widgetText (w : MainWindow) (i j : Nat) : Option CellText :=
  match w.grid[i]? with
  | none => none
  | some cells => cells[j]?

/-- Changing the text of the widget `grid[i][j]`; `none` when out of bounds. -/
def setWidgetText (texts : List (List CellText)) (i j : Nat) (t : CellText) :
    Option (List (List CellText)) :=
  match texts[i]? with
  | none => none
  | some cells => if j < cells.length then some (texts.set i (cells.set j t)) else none

/-- The inner loop (over `j`) of lines 76-90 of `on_solveButton_clicked`:
`some none` is the early return after the "Invalid Input" warning. -/
def readWidgetsRow (w : MainWindow) (i : Nat) : List Nat → Grid → Option (Option Grid)
  | [], puzzle => some (some puzzle)
  | j :: rest, puzzle =>
    match widgetText w i j with
    | none => none
    | some none => readWidgetsRow w i rest puzzle
    | some (some value) =>
      if value < 1 ∨ value > (w.gridSize : Int) then some none
      else
        match writeCell puzzle i j value with
        | none => none
        | some puzzle1 => readWidgetsRow w i rest puzzle1

/-- The outer loop (over `i`) of lines 76-90 of `on_solveButton_clicked`. -/
def readWidgets (w : MainWindow) : List Nat → Grid → Option (Option Grid)
  | [], puzzle => some (some puzzle)
  | i :: rest, puzzle =>
    match readWidgetsRow w i (List.range w.gridSize) puzzle with
    | none => none
    | some none => some none
    | some (some puzzle1) => readWidgets w rest puzzle1

/-- The inner loop (over `j`) of the display of the solved puzzle, lines 110-114. -/
def showRow (puzzle : Grid) (i : Nat) :
    List Nat → List (List CellText) → Option (List (List CellText))
  | [], texts => some texts
  | j :: rest, texts =>
    match readCell puzzle i j with
    | none => none
    | some value =>
      match setWidgetText texts i j (some value) with
      | none => none
      | some texts1 => showRow puzzle i rest texts1

/-- The outer loop (over `i`) of the display of the solved puzzle. -/
def showGrid (puzzle : Grid) (gridSize : Nat) :
    List Nat → List (List CellText) → Option (List (List CellText))
  | [], texts => some texts
  | i :: rest, texts =>
    match showRow puzzle i (List.range gridSize) texts with
    | none => none
    | some texts1 => showGrid puzzle gridSize rest texts1

/-- A call from the window into the core, with the size it is made with. -/
inductive CoreCall where
  /-- `isValidPuzzle(puzzle)`, which reads the member `gridSize` -/
  | validate (gridSize : Nat) (puzzle : Grid)
  /-- `solveSudoku(puzzle, size)` -/
  | solve (puzzle : Grid) (size : Nat)
deriving DecidableEq, Repr

/-- The grid size a call into the core is made with. -/
def CoreCall.size : CoreCall → Nat
  | CoreCall.validate gridSize _ => gridSize
  | CoreCall.solve _ size => size

/-- How a click on the solve button ended. -/
inductive ClickOutcome where
  /-- an access was out of bounds -/
  | fault
  /-- the search went deeper than the fuel allows -/
  | outOfFuel
  /-- the "Invalid Input" warning -/
  | invalidInput
  /-- the "Invalid Puzzle" warning -/
  | invalidPuzzle
  /-- the "Unsolvable Puzzle" warning -/
  | unsolvable
  /-- the solved puzzle is displayed -/
  | solved
deriving DecidableEq, Repr

/-- What a click on the solve button does: the window afterwards, how the
handler ended, and the calls it made into the core, in order. -/
structure Click where
  /-- the window after the handler -/
  window : MainWindow
  /-- how the handler ended -/
  outcome : ClickOutcome
  /-- the calls made into the core -/
  calls : List CoreCall
deriving DecidableEq, Repr

/-- `MainWindow::on_solveButton_clicked`; `fuel` bounds the recursion of
`solveSudoku`.  The timer and the debug output are left out. -/
def on_solveButton_clicked (fuel : Nat) (w : MainWindow) : Click :=
  match readWidgets w (List.range w.gridSize)
      (List.replicate w.gridSize (List.replicate w.gridSize 0)) with
  | none => { window := w, outcome := ClickOutcome.fault, calls := [] }
  | some none => { window := w, outcome := ClickOutcome.invalidInput, calls := [] }
  | some (some puzzle) =>
    match isValidPuzzle w.gridSize puzzle with
    | none =>
      { window := w, outcome := ClickOutcome.fault,
        calls := [CoreCall.validate w.gridSize puzzle] }
    | some false =>
      { window := w, outcome := ClickOutcome.invalidPuzzle,
        calls := [CoreCall.validate w.gridSize puzzle] }
    | some true =>
      match solveSudoku fuel puzzle w.gridSize with
      | SolveResult.fault =>
        { window := w, outcome := ClickOutcome.fault,
          calls := [CoreCall.validate w.gridSize puzzle, CoreCall.solve puzzle w.gridSize] }
      | SolveResult.outOfFuel =>
        { window := w, outcome := ClickOutcome.outOfFuel,
          calls := [CoreCall.validate w.gridSize puzzle, CoreCall.solve puzzle w.gridSize] }
      | SolveResult.done false _ =>
        { window := w, outcome := ClickOutcome.unsolvable,
          calls := [CoreCall.validate w.gridSize puzzle, CoreCall.solve puzzle w.gridSize] }
      | SolveResult.done true solvedGrid =>
        match showGrid solvedGrid w.gridSize (List.range w.gridSize) w.grid with
        | none =>
          { window := w, outcome := ClickOutcome.fault,
            calls := [CoreCall.validate w.gridSize puzzle, CoreCall.solve puzzle w.gridSize] }
        | some texts =>
          { window := { gridSize := w.gridSize, grid := texts },
            outcome := ClickOutcome.solved,
            calls := [CoreCall.validate w.gridSize puzzle, CoreCall.solve puzzle w.gridSize] }

/-- The inner loop (over `j`) of `on_clearButton_clicked`. -/
def clearRow (i : Nat) : List Nat → List (List CellText) → Option (List (List CellText))
  | [], texts => some texts
  | j :: rest, texts =>
    match setWidgetText texts i j none with
    | none => none
    | some texts1 => clearRow i rest texts1

/-- The outer loop (over `i`) of `on_clearButton_clicked`. -/
def clearGrid (gridSize : Nat) : List Nat → List (List CellText) → Option (List (List CellText))
  | [], texts => some texts
  | i :: rest, texts =>
    match clearRow i (List.range gridSize) texts with
    | none => none
    | some texts1 => clearGrid gridSize rest texts1

/-- `MainWindow::on_clearButton_clicked`; `none` when an access is out of bounds. -/
def on_clearButton_clicked (w : MainWindow) : Option MainWindow :=
  match clearGrid w.gridSize (List.range w.gridSize) w.grid with
  | none => none
  | some texts => some { gridSize := w.gridSize, grid := texts }

/-- The user edits the text of the cell widget `(i, j)`. -/
def editCell (w : MainWindow) (i j : Nat) (t : CellText) : Option MainWindow :=
  match setWidgetText w.grid i j t with
  | none => none
  | some texts => some { gridSize := w.gridSize, grid := texts }

/-- The states of the window that can be reached from the constructor by the
three slots and by edits of the cells. -/
inductive Reachable : MainWindow → Prop where
  | constructed : Reachable mainWindow
  | sizeChanged (w : MainWindow) (index : Int) :
      Reachable w → Reachable (on_sizeComboBox_currentIndexChanged w index)
  | solveClicked (w : MainWindow) (fuel : Nat) :
      Reachable w → Reachable (on_solveButton_clicked fuel w).window
  | clearClicked (w w1 : MainWindow) :
      Reachable w → on_clearButton_clicked w = some w1 → Reachable w1
  | edited (w w1 : MainWindow) (i j : Nat) (t : CellText) :
      Reachable w → editCell w i j t = some w1 → Reachable w1

/-- A 4 × 4 grid without blank cell whose first row holds two `1`s. -/
def invalidFull4 : Grid := [[1, 2, 1, 4], [3, 4, 3, 2], [2, 1, 4, 3], [4, 3, 2, 1]]

/-- A 4 × 4 grid, otherwise blank, with one cell holding `5`. -/
def outOfRange4 : Grid := [[5, 0, 0, 0], [0, 0, 0, 0], [0, 0, 0, 0], [0, 0, 0, 0]]

/-! ## Square root, cells and writes -/

theorem intSqrtFrom_eq (n s : Nat) (h1 : s * s ≤ n) (h2 : n < (s + 1) * (s + 1)) :
    ∀ k, s ≤ k → intSqrtFrom n k = s := by
  intro k
  induction k with
  | zero =>
    intro hk
    have hs : s = 0 := by omega
    subst hs
    rfl
  | succ k ih =>
    intro hk
    unfold intSqrtFrom
    by_cases hle : (k + 1) * (k + 1) ≤ n
    · rw [if_pos hle]
      by_contra hne
      have hlt : s + 1 ≤ k + 1 := by omega
      have := Nat.mul_le_mul hlt hlt
      omega
    · rw [if_neg hle]
      apply ih
      by_contra hlt
      have hs : s = k + 1 := by omega
      subst hs
      exact hle h1

theorem intSqrt_sq (s : Nat) : intSqrt (s * s) = s := by
  unfold intSqrt
  apply intSqrtFrom_eq _ _ (le_refl _)
  · nlinarith
  · nlinarith

/-- The truncated square root of the embedding is the integer square root. -/
theorem intSqrt_eq_sqrt (n : Nat) : intSqrt n = Nat.sqrt n := by
  unfold intSqrt
  apply intSqrtFrom_eq
  · exact Nat.sqrt_le n
  · exact Nat.lt_succ_sqrt n
  · exact Nat.sqrt_le_self n

theorem readCell_isGrid {N : Nat} {g : Grid} (hg : IsGrid N g) {i j : Nat}
    (hi : i < N) (hj : j < N) : readCell g i j = some (cell g i j) := by
  obtain ⟨hlen, hrows⟩ := hg
  have hi' : i < g.length := by omega
  have hc : (g[i]).length = N := hrows _ (List.getElem_mem _)
  have hj' : j < (g[i]).length := by omega
  simp [cell, readCell, List.getElem?_eq_getElem hi', List.getElem?_eq_getElem hj']

theorem writeCell_isGrid {N : Nat} {g : Grid} (hg : IsGrid N g) {i j : Nat}
    (hi : i < N) (hj : j < N) (v : Int) :
    ∃ g', writeCell g i j v = some g' ∧ IsGrid N g' ∧
      ∀ a b, cell g' a b = if a = i ∧ b = j then v else cell g a b := by
  obtain ⟨hlen, hrows⟩ := hg
  have hi' : i < g.length := by omega
  have hc : (g[i]).length = N := hrows _ (List.getElem_mem _)
  have hj' : j < (g[i]).length := by omega
  refine ⟨g.set i ((g[i]).set j v), ?_, ⟨?_, ?_⟩, ?_⟩
  · simp [writeCell, List.getElem?_eq_getElem hi', hj']
  · simp [hlen]
  · intro cells hmem
    rcases List.mem_or_eq_of_mem_set hmem with h | h
    · exact hrows _ h
    · subst h
      simp [hc]
  · intro a b
    unfold cell readCell
    rw [List.getElem?_set]
    by_cases ha : i = a
    · subst ha
      simp only [hi', if_true, true_and]
      rw [List.getElem?_set]
      by_cases hb : j = b
      · subst hb
        simp [hj']
      · have hb' : ¬ b = j := fun h => hb h.symm
        simp [hb, hb', List.getElem?_eq_getElem hi']
    · have ha' : ¬ a = i := fun h => ha h.symm
      simp [ha, ha']

theorem writeCell_undo {g g1 : Grid} {i j : Nat} {v : Int} (h0 : readCell g i j = some 0)
    (hw : writeCell g i j v = some g1) : writeCell g1 i j 0 = some g := by
  unfold readCell at h0
  unfold writeCell at hw
  cases hgi : g[i]? with
  | none => simp [hgi] at h0
  | some cells =>
    rw [hgi] at h0 hw
    simp only at h0 hw
    have hj : j < cells.length := by
      rcases List.getElem?_eq_some_iff.mp h0 with ⟨h, _⟩
      exact h
    have hi : i < g.length := by
      rcases List.getElem?_eq_some_iff.mp hgi with ⟨h, _⟩
      exact h
    rw [if_pos hj] at hw
    injection hw with hw
    subst hw
    have e1 : (cells.set j v).set j 0 = cells := by
      rw [List.set_set]
      apply List.ext_getElem? 
      intro k
      rw [List.getElem?_set]
      by_cases hk : j = k
      · subst hk
        simp [hj, h0]
      · simp [hk]
    have e2 : g.set i cells = g := by
      apply List.ext_getElem?
      intro k
      rw [List.getElem?_set]
      by_cases hk : i = k
      · subst hk
        simp [hi, hgi]
      · simp [hk]
    simp [writeCell, hi, hj, e1, List.set_set, e2]

theorem count_zero_set (l : List Int) (j : Nat) (v : Int) (h : l[j]? = some 0) (hv : v ≠ 0) :
    (l.set j v).count 0 + 1 = l.count 0 := by
  induction l generalizing j with
  | nil => simp at h
  | cons a l ih =>
    cases j with
    | zero =>
      simp at h
      subst h
      simp [List.count_cons, hv]
    | succ j =>
      simp at h
      have := ih j h
      simp only [List.set_cons_succ, List.count_cons]
      omega

theorem blankCount_set (g : Grid) (i : Nat) (cells x : List Int) (h : g[i]? = some cells)
    (hx : x.count 0 + 1 = cells.count 0) : blankCount (g.set i x) + 1 = blankCount g := by
  induction g generalizing i with
  | nil => simp at h
  | cons a g ih =>
    cases i with
    | zero =>
      simp at h
      subst h
      simp [blankCount]
      omega
    | succ i =>
      simp at h
      have := ih i h
      simp [blankCount] at this ⊢
      omega

theorem blankCount_writeCell {g g1 : Grid} {i j : Nat} {v : Int} (h0 : readCell g i j = some 0)
    (hv : v ≠ 0) (hw : writeCell g i j v = some g1) : blankCount g1 + 1 = blankCount g := by
  unfold readCell at h0
  unfold writeCell at hw
  cases hgi : g[i]? with
  | none => simp [hgi] at h0
  | some cells =>
    rw [hgi] at h0 hw
    simp only at h0 hw
    have hj : j < cells.length := by
      rcases List.getElem?_eq_some_iff.mp h0 with ⟨h, _⟩
      exact h
    rw [if_pos hj] at hw
    injection hw with hw
    subst hw
    exact blankCount_set g i cells _ hgi (count_zero_set cells j v h0 hv)

/-! ## Presence arrays -/

theorem fresh_cons_zero (chk : List Bool) (vs : List Int) :
    Fresh chk (0 :: vs) ↔ Fresh chk vs := by
  unfold Fresh
  simp [List.pairwise_cons]

theorem fresh_cons_mark (chk : List Bool) (v : Int) (vs : List Int) (hv0 : v ≠ 0) (hv : 0 ≤ v)
    (hvs : ∀ w, w ∈ vs → 0 ≤ w) (hlt : v.toNat < chk.length) :
    Fresh chk (v :: vs) ↔
      chk[v.toNat]? = some false ∧ Fresh (chk.set v.toNat true) vs := by
  unfold Fresh
  simp only [List.pairwise_cons, List.mem_cons, forall_eq_or_imp]
  constructor
  · rintro ⟨⟨h1, h2⟩, h3, h4⟩
    refine ⟨h3 hv0, h2, ?_⟩
    intro w hw hw0
    rw [List.getElem?_set]
    have hne : v.toNat ≠ w.toNat := by
      intro he
      apply h1 w hw
      have := hvs w hw
      exact ⟨by omega, hv0⟩
    rw [if_neg hne]
    exact h4 w hw hw0
  · rintro ⟨h3, h2, h4⟩
    refine ⟨⟨?_, h2⟩, fun _ => h3, ?_⟩
    · rintro w hw ⟨he, -⟩
      subst he
      have := h4 v hw hv0
      rw [List.getElem?_set] at this
      simp [hlt] at this
    · intro w hw hw0
      have := h4 w hw hw0
      rw [List.getElem?_set] at this
      by_cases hne : v.toNat = w.toNat
      · rw [if_pos hne] at this
        simp [hlt] at this
      · rw [if_neg hne] at this
        exact this

/-- One test-and-set step against a presence array of length `N + 1`, on values in `0 .. N`. -/
theorem checkValue_step (N : Nat) (chk : List Bool) (hlen : chk.length = N + 1) (v : Int)
    (hv : 0 ≤ v ∧ v ≤ (N : Int)) (vs : List Int) (hvs : ∀ w, w ∈ vs → 0 ≤ w ∧ w ≤ (N : Int)) :
    (checkValue chk v = Seen.duplicate ∧ ¬ Fresh chk (v :: vs)) ∨
      ∃ chk', checkValue chk v = Seen.next chk' ∧ chk'.length = N + 1 ∧
        (Fresh chk (v :: vs) ↔ Fresh chk' vs) := by
  by_cases hv0 : v = 0
  · subst hv0
    right
    exact ⟨chk, by simp [checkValue], hlen, fresh_cons_zero chk vs⟩
  · have hlt : v.toNat < chk.length := by omega
    have hnn : ¬ v < 0 := by omega
    have hfr := fresh_cons_mark chk v vs hv0 hv.1 (fun w hw => (hvs w hw).1) hlt
    cases hb : chk[v.toNat] with
    | true =>
      left
      refine ⟨by simp [checkValue, hv0, hnn, List.getElem?_eq_getElem hlt, hb], ?_⟩
      rw [hfr]
      simp [List.getElem?_eq_getElem hlt, hb]
    | false =>
      right
      refine ⟨chk.set v.toNat true,
        by simp [checkValue, hv0, hnn, List.getElem?_eq_getElem hlt, hb], by simp [hlen], ?_⟩
      rw [hfr]
      simp [List.getElem?_eq_getElem hlt, hb]

theorem fresh_replicate (N : Nat) (vs : List Int) (hvs : ∀ w, w ∈ vs → 0 ≤ w ∧ w ≤ (N : Int)) :
    Fresh (List.replicate (N + 1) false) vs ↔ vs.Pairwise (fun a b => ¬ (a = b ∧ a ≠ 0)) := by
  unfold Fresh
  constructor
  · exact fun h => h.1
  · intro h
    refine ⟨h, ?_⟩
    intro w hw _
    have := hvs w hw
    rw [List.getElem?_replicate, if_pos (by omega)]

/-! ## The validator -/

theorem isValidRowOrColumnLoop_spec {N : Nat} {g : Grid} (hg : IsGrid N g) (hr : InRange N g)
    {index : Nat} (hx : index < N) :
    ∀ (l : List Nat), (∀ i, i ∈ l → i < N) → ∀ (rc cc : List Bool), rc.length = N + 1 →
      cc.length = N + 1 →
      ∃ b, isValidRowOrColumnLoop g index l rc cc = some b ∧
        (b = true ↔ Fresh rc (l.map fun i => cell g index i) ∧
          Fresh cc (l.map fun i => cell g i index)) := by
  intro l
  induction l with
  | nil =>
    intro _ rc cc _ _
    exact ⟨true, rfl, by simp [Fresh]⟩
  | cons i rest ih =>
    intro hl rc cc hrc hcc
    have hi : i < N := hl i (List.mem_cons_self _ _)
    have hrest : ∀ k, k ∈ rest → k < N := fun k hk => hl k (List.mem_cons_of_mem _ hk)
    have hrow : ∀ w, w ∈ rest.map (fun k => cell g index k) → 0 ≤ w ∧ w ≤ (N : Int) := by
      intro w hw
      rcases List.mem_map.mp hw with ⟨k, hk, rfl⟩
      exact hr index hx k (hrest k hk)
    have hcol : ∀ w, w ∈ rest.map (fun k => cell g k index) → 0 ≤ w ∧ w ≤ (N : Int) := by
      intro w hw
      rcases List.mem_map.mp hw with ⟨k, hk, rfl⟩
      exact hr k (hrest k hk) index hx
    simp only [List.map_cons]
    unfold isValidRowOrColumnLoop
    rw [readCell_isGrid hg hx hi]
    simp only
    rcases checkValue_step N rc hrc (cell g index i) (hr index hx i hi) _ hrow with
      ⟨h1, h2⟩ | ⟨rc1, h1, hlen1, h2⟩
    · rw [h1]
      exact ⟨false, rfl, by simp [h2]⟩
    · rw [h1]
      simp only
      rw [readCell_isGrid hg hi hx]
      simp only
      rcases checkValue_step N cc hcc (cell g i index) (hr i hi index hx) _ hcol with
        ⟨h3, h4⟩ | ⟨cc1, h3, hlen3, h4⟩
      · rw [h3]
        exact ⟨false, rfl, by simp [h4]⟩
      · rw [h3]
        simp only
        obtain ⟨b, hb, hiff⟩ := ih hrest rc1 cc1 hlen1 hlen3
        exact ⟨b, hb, by rw [hiff, h2, h4]⟩

theorem isValidRowOrColumn_spec {N : Nat} {g : Grid} (hg : IsGrid N g) (hr : InRange N g)
    {index : Nat} (hx : index < N) :
    ∃ b, isValidRowOrColumn N g index = some b ∧
      (b = true ↔ DistinctValues g (rowGroup N index) ∧ DistinctValues g (colGroup N index)) := by
  obtain ⟨b, hb, hiff⟩ := isValidRowOrColumnLoop_spec hg hr hx (List.range N)
    (fun i hi => List.mem_range.mp hi) (List.replicate (N + 1) false)
    (List.replicate (N + 1) false) (by simp) (by simp)
  refine ⟨b, hb, ?_⟩
  rw [hiff, fresh_replicate, fresh_replicate]
  · simp [DistinctValues, rowGroup, colGroup, List.map_map, Function.comp_def]
  · intro w hw
    rcases List.mem_map.mp hw with ⟨k, hk, rfl⟩
    exact hr k (List.mem_range.mp hk) index hx
  · intro w hw
    rcases List.mem_map.mp hw with ⟨k, hk, rfl⟩
    exact hr index hx k (List.mem_range.mp hk)

theorem isValidSubGridInner_spec {N : Nat} {g : Grid} (hg : IsGrid N g) (hr : InRange N g)
    {sr sc i : Nat} (hi : sr + i < N) (tail : List Int)
    (htail : ∀ w, w ∈ tail → 0 ≤ w ∧ w ≤ (N : Int)) :
    ∀ (l : List Nat), (∀ j, j ∈ l → sc + j < N) → ∀ (chk : List Bool), chk.length = N + 1 →
      (isValidSubGridInner g sr sc i l chk = Seen.duplicate ∧
          ¬ Fresh chk ((l.map fun j => cell g (sr + i) (sc + j)) ++ tail)) ∨
        ∃ chk', isValidSubGridInner g sr sc i l chk = Seen.next chk' ∧ chk'.length = N + 1 ∧
          (Fresh chk ((l.map fun j => cell g (sr + i) (sc + j)) ++ tail) ↔ Fresh chk' tail) := by
  intro l
  induction l with
  | nil =>
    intro _ chk hlen
    right
    exact ⟨chk, rfl, hlen, by simp⟩
  | cons j rest ih =>
    intro hl chk hlen
    have hj : sc + j < N := hl j (List.mem_cons_self _ _)
    have hrest : ∀ k, k ∈ rest → sc + k < N := fun k hk => hl k (List.mem_cons_of_mem _ hk)
    have hvals : ∀ w, w ∈ (rest.map fun k => cell g (sr + i) (sc + k)) ++ tail →
        0 ≤ w ∧ w ≤ (N : Int) := by
      intro w hw
      rcases List.mem_append.mp hw with hw | hw
      · rcases List.mem_map.mp hw with ⟨k, hk, rfl⟩
        exact hr _ hi _ (hrest k hk)
      · exact htail w hw
    simp only [List.map_cons, List.cons_append]
    unfold isValidSubGridInner
    rw [readCell_isGrid hg hi hj]
    simp only
    rcases checkValue_step N chk hlen (cell g (sr + i) (sc + j)) (hr _ hi _ hj) _ hvals with
      ⟨h1, h2⟩ | ⟨chk1, h1, hlen1, h2⟩
    · rw [h1]
      left
      exact ⟨rfl, h2⟩
    · rw [h1]
      simp only
      rcases ih hrest chk1 hlen1 with ⟨h3, h4⟩ | ⟨chk2, h3, hlen2, h4⟩
      · left
        exact ⟨h3, by rw [h2]; exact h4⟩
      · right
        exact ⟨chk2, h3, hlen2, by rw [h2, h4]⟩

theorem isValidSubGridOuter_spec {N : Nat} {g : Grid} (hg : IsGrid N g) (hr : InRange N g)
    {sr sc s : Nat} (hc : ∀ j, j < s → sc + j < N) :
    ∀ (l : List Nat), (∀ i, i ∈ l → sr + i < N) → ∀ (chk : List Bool), chk.length = N + 1 →
      ∃ b, isValidSubGridOuter g sr sc s l chk = some b ∧
        (b = true ↔ Fresh chk (l.flatMap fun i =>
          (List.range s).map fun j => cell g (sr + i) (sc + j))) := by
  intro l
  induction l with
  | nil =>
    intro _ chk _
    exact ⟨true, rfl, by simp [Fresh]⟩
  | cons i rest ih =>
    intro hl chk hlen
    have hi : sr + i < N := hl i (List.mem_cons_self _ _)
    have hrest : ∀ k, k ∈ rest → sr + k < N := fun k hk => hl k (List.mem_cons_of_mem _ hk)
    have htail : ∀ w, w ∈ (rest.flatMap fun i =>
        (List.range s).map fun j => cell g (sr + i) (sc + j)) → 0 ≤ w ∧ w ≤ (N : Int) := by
      intro w hw
      rcases List.mem_flatMap.mp hw with ⟨k, hk, hw⟩
      rcases List.mem_map.mp hw with ⟨j, hj, rfl⟩
      exact hr _ (hrest k hk) _ (hc j (List.mem_range.mp hj))
    rw [List.flatMap_cons]
    unfold isValidSubGridOuter
    rcases isValidSubGridInner_spec hg hr hi _ htail (List.range s)
        (fun j hj => hc j (List.mem_range.mp hj)) chk hlen with
      ⟨h1, h2⟩ | ⟨chk1, h1, hlen1, h2⟩
    · rw [h1]
      exact ⟨false, rfl, by simp [h2]⟩
    · rw [h1]
      simp only
      obtain ⟨b, hb, hiff⟩ := ih hrest chk1 hlen1
      exact ⟨b, hb, by rw [hiff, h2]⟩

theorem block_bound {s a i : Nat} (ha : a < s) (hi : i < s) : a * s + i < s * s := by
  have h1 : a * s + s ≤ s * s := by
    have : (a + 1) * s ≤ s * s := Nat.mul_le_mul_right s ha
    linarith [Nat.succ_mul a s]
  omega

theorem isValidSubGrid_spec {N s : Nat} (hN : N = s * s) {g : Grid} (hg : IsGrid N g)
    (hr : InRange N g) {br bc : Nat} (hbr : br < s) (hbc : bc < s) :
    ∃ b, isValidSubGrid N g (br * s) (bc * s) s = some b ∧
      (b = true ↔ DistinctValues g (blockGroup s br bc)) := by
  have hrow : ∀ i, i ∈ List.range s → br * s + i < N := fun i hi => by
    rw [hN]; exact block_bound hbr (List.mem_range.mp hi)
  have hcol : ∀ j, j < s → bc * s + j < N := fun j hj => by
    rw [hN]; exact block_bound hbc hj
  obtain ⟨b, hb, hiff⟩ := isValidSubGridOuter_spec hg hr hcol (List.range s) hrow
    (List.replicate (N + 1) false) (by simp)
  refine ⟨b, hb, ?_⟩
  rw [hiff, fresh_replicate]
  · simp [DistinctValues, blockGroup, List.map_flatMap, List.map_map, Function.comp_def]
  · intro w hw
    rcases List.mem_flatMap.mp hw with ⟨k, hk, hw⟩
    rcases List.mem_map.mp hw with ⟨j, hj, rfl⟩
    exact hr _ (hrow k hk) _ (hcol j (List.mem_range.mp hj))

theorem isValidPuzzleLines_spec {N : Nat} {g : Grid} (hg : IsGrid N g) (hr : InRange N g) :
    ∀ (l : List Nat), (∀ i, i ∈ l → i < N) →
      ∃ b, isValidPuzzleLines N g l = some b ∧
        (b = true ↔ ∀ i, i ∈ l →
          DistinctValues g (rowGroup N i) ∧ DistinctValues g (colGroup N i)) := by
  intro l
  induction l with
  | nil =>
    intro _
    exact ⟨true, rfl, by simp⟩
  | cons i rest ih =>
    intro hl
    have hi : i < N := hl i (List.mem_cons_self _ _)
    have hrest : ∀ k, k ∈ rest → k < N := fun k hk => hl k (List.mem_cons_of_mem _ hk)
    obtain ⟨b0, hb0, hiff0⟩ := isValidRowOrColumn_spec hg hr hi
    unfold isValidPuzzleLines
    rw [hb0]
    cases b0 with
    | false =>
      refine ⟨false, rfl, ?_⟩
      simp only [Bool.false_eq_true, false_iff]
      intro h
      exact absurd (hiff0.mpr (h i (List.mem_cons_self _ _))) (by simp)
    | true =>
      simp only
      obtain ⟨b, hb, hiff⟩ := ih hrest
      refine ⟨b, hb, ?_⟩
      rw [hiff]
      simp only [List.mem_cons, forall_eq_or_imp]
      constructor
      · exact fun h => ⟨hiff0.mp rfl, h⟩
      · exact fun h => h.2

theorem isValidPuzzleCols_spec {N s : Nat} (hN : N = s * s) (hs : 0 < s) {g : Grid}
    (hg : IsGrid N g) (hr : InRange N g) {br : Nat} (hbr : br < s) :
    ∀ (fuel k : Nat), N ≤ k * s + fuel →
      ∃ b, isValidPuzzleCols N g (br * s) s fuel (k * s) = some b ∧
        (b = true ↔ ∀ bc, k ≤ bc → bc < s → DistinctValues g (blockGroup s br bc)) := by
  intro fuel
  induction fuel with
  | zero =>
    intro k hk
    have hks : s ≤ k := by
      by_contra hlt
      have : k * s + 0 < s * s := block_bound (Nat.lt_of_not_le hlt) hs
      omega
    refine ⟨true, ?_, ?_⟩
    · unfold isValidPuzzleCols
      rw [if_neg (by omega)]
    · simp only [true_iff]
      intro bc h1 h2
      omega
  | succ fuel ih =>
    intro k hk
    unfold isValidPuzzleCols
    by_cases hlt : k * s < N
    · rw [if_pos hlt]
      have hks : k < s := by
        by_contra hge
        have : s * s ≤ k * s := Nat.mul_le_mul_right s (Nat.le_of_not_lt hge)
        omega
      obtain ⟨b0, hb0, hiff0⟩ := isValidSubGrid_spec hN hg hr hbr hks
      rw [hb0]
      cases b0 with
      | false =>
        refine ⟨false, rfl, ?_⟩
        simp only [Bool.false_eq_true, false_iff]
        intro h
        exact absurd (hiff0.mpr (h k (le_refl _) hks)) (by simp)
      | true =>
        simp only
        rw [if_neg (by omega)]
        have hstep : k * s + s = (k + 1) * s := by rw [Nat.succ_mul]
        rw [hstep]
        obtain ⟨b, hb, hiff⟩ := ih (k + 1) (by rw [Nat.succ_mul]; omega)
        refine ⟨b, hb, ?_⟩
        rw [hiff]
        constructor
        · intro h bc h1 h2
          by_cases he : bc = k
          · subst he
            exact hiff0.mp rfl
          · exact h bc (by omega) h2
        · intro h bc h1 h2
          exact h bc (by omega) h2
    · rw [if_neg hlt]
      have hks : s ≤ k := by
        by_contra hlt'
        have : k * s + 0 < s * s := block_bound (Nat.lt_of_not_le hlt') hs
        omega
      refine ⟨true, rfl, ?_⟩
      simp only [true_iff]
      intro bc h1 h2
      omega

theorem isValidPuzzleRows_spec {N s : Nat} (hN : N = s * s) (hs : 0 < s) {g : Grid}
    (hg : IsGrid N g) (hr : InRange N g) :
    ∀ (fuel k : Nat), N ≤ k * s + fuel →
      ∃ b, isValidPuzzleRows N g s fuel (k * s) = some b ∧
        (b = true ↔ ∀ br, k ≤ br → br < s → ∀ bc, bc < s →
          DistinctValues g (blockGroup s br bc)) := by
  intro fuel
  induction fuel with
  | zero =>
    intro k hk
    have hks : s ≤ k := by
      by_contra hlt
      have : k * s + 0 < s * s := block_bound (Nat.lt_of_not_le hlt) hs
      omega
    refine ⟨true, ?_, ?_⟩
    · unfold isValidPuzzleRows
      rw [if_neg (by omega)]
    · simp only [true_iff]
      intro br h1 h2
      omega
  | succ fuel ih =>
    intro k hk
    unfold isValidPuzzleRows
    by_cases hlt : k * s < N
    · rw [if_pos hlt]
      have hks : k < s := by
        by_contra hge
        have : s * s ≤ k * s := Nat.mul_le_mul_right s (Nat.le_of_not_lt hge)
        omega
      obtain ⟨b0, hb0, hiff0⟩ := isValidPuzzleCols_spec hN hs hg hr hks N 0 (by omega)
      rw [Nat.zero_mul] at hb0
      rw [hb0]
      cases b0 with
      | false =>
        refine ⟨false, rfl, ?_⟩
        simp only [Bool.false_eq_true, false_iff]
        intro h
        exact absurd (hiff0.mpr (fun bc _ h2 => h k (le_refl _) hks bc h2)) (by simp)
      | true =>
        simp only
        rw [if_neg (by omega)]
        have hstep : k * s + s = (k + 1) * s := by rw [Nat.succ_mul]
        rw [hstep]
        obtain ⟨b, hb, hiff⟩ := ih (k + 1) (by rw [Nat.succ_mul]; omega)
        refine ⟨b, hb, ?_⟩
        rw [hiff]
        constructor
        · intro h br h1 h2 bc h3
          by_cases he : br = k
          · subst he
            exact hiff0.mp rfl bc (Nat.zero_le _) h3
          · exact h br (by omega) h2 bc h3
        · intro h br h1 h2
          exact h br (by omega) h2
    · rw [if_neg hlt]
      have hks : s ≤ k := by
        by_contra hlt'
        have : k * s + 0 < s * s := block_bound (Nat.lt_of_not_le hlt') hs
        omega
      refine ⟨true, rfl, ?_⟩
      simp only [true_iff]
      intro br h1 h2
      omega

theorem mem_groups {N : Nat} {G : List (Nat × Nat)} :
    G ∈ groups N ↔ (∃ i, i < N ∧ G = rowGroup N i) ∨ (∃ i, i < N ∧ G = colGroup N i) ∨
      ∃ br, br < intSqrt N ∧ ∃ bc, bc < intSqrt N ∧ G = blockGroup (intSqrt N) br bc := by
  unfold groups
  simp only [List.mem_append, List.mem_map, List.mem_range, List.mem_flatMap, or_assoc]
  constructor
  · rintro (⟨i, hi, rfl⟩ | ⟨i, hi, rfl⟩ | ⟨br, hbr, bc, hbc, rfl⟩)
    · exact Or.inl ⟨i, hi, rfl⟩
    · exact Or.inr (Or.inl ⟨i, hi, rfl⟩)
    · exact Or.inr (Or.inr ⟨br, hbr, bc, hbc, rfl⟩)
  · rintro (⟨i, hi, rfl⟩ | ⟨i, hi, rfl⟩ | ⟨br, hbr, bc, hbc, rfl⟩)
    · exact Or.inl ⟨i, hi, rfl⟩
    · exact Or.inr (Or.inl ⟨i, hi, rfl⟩)
    · exact Or.inr (Or.inr ⟨br, hbr, bc, hbc, rfl⟩)

/-- The validator returns a boolean, and it is `true` exactly when no group
holds a non-zero value at two positions. -/
theorem isValidPuzzle_spec {N s : Nat} (hN : N = s * s) {g : Grid} (hg : IsGrid N g)
    (hr : InRange N g) :
    ∃ b, isValidPuzzle N g = some b ∧ (b = true ↔ ∀ G, G ∈ groups N → DistinctValues g G) := by
  have hsq : intSqrt N = s := by rw [hN]; exact intSqrt_sq s
  obtain ⟨b0, hb0, hiff0⟩ := isValidPuzzleLines_spec hg hr (List.range N)
    (fun i hi => List.mem_range.mp hi)
  unfold isValidPuzzle
  rw [hb0, hsq]
  cases b0 with
  | false =>
    refine ⟨false, rfl, ?_⟩
    simp only [Bool.false_eq_true, false_iff]
    intro h
    have : (false = true) := hiff0.mpr (fun i hi =>
      ⟨h _ (mem_groups.mpr (Or.inl ⟨i, List.mem_range.mp hi, rfl⟩)),
       h _ (mem_groups.mpr (Or.inr (Or.inl ⟨i, List.mem_range.mp hi, rfl⟩)))⟩)
    exact absurd this (by simp)
  | true =>
    simp only
    have hlines := hiff0.mp rfl
    by_cases hs : 0 < s
    · obtain ⟨b, hb, hiff⟩ := isValidPuzzleRows_spec hN hs hg hr N 0 (by omega)
      rw [Nat.zero_mul] at hb
      refine ⟨b, hb, ?_⟩
      rw [hiff]
      constructor
      · intro h G hG
        rcases mem_groups.mp hG with ⟨i, hi, rfl⟩ | ⟨i, hi, rfl⟩ | ⟨br, hbr, bc, hbc, rfl⟩
        · exact (hlines i (List.mem_range.mpr hi)).1
        · exact (hlines i (List.mem_range.mpr hi)).2
        · rw [hsq] at hbr hbc ⊢
          exact h br (Nat.zero_le _) hbr bc hbc
      · intro h br _ hbr bc hbc
        apply h
        apply mem_groups.mpr
        right; right
        rw [hsq]
        exact ⟨br, hbr, bc, hbc, rfl⟩
    · have hs0 : s = 0 := by omega
      subst hs0
      have hN0 : N = 0 := by omega
      subst hN0
      refine ⟨true, by simp [isValidPuzzleRows], ?_⟩
      simp only [true_iff]
      intro G hG
      rcases mem_groups.mp hG with ⟨i, hi, rfl⟩ | ⟨i, hi, rfl⟩ | ⟨br, hbr, bc, hbc, rfl⟩
      · omega
      · omega
      · rw [hsq] at hbr
        omega

/-! ## Constraint groups -/

theorem mem_rowGroup {N r : Nat} {p : Nat × Nat} : p ∈ rowGroup N r ↔ p.1 = r ∧ p.2 < N := by
  obtain ⟨a, b⟩ := p
  simp only [rowGroup, List.mem_map, List.mem_range, Prod.mk.injEq]
  constructor
  · rintro ⟨c, hc, rfl, rfl⟩
    exact ⟨rfl, hc⟩
  · rintro ⟨rfl, hb⟩
    exact ⟨b, hb, rfl, rfl⟩

theorem mem_colGroup {N c : Nat} {p : Nat × Nat} : p ∈ colGroup N c ↔ p.2 = c ∧ p.1 < N := by
  obtain ⟨a, b⟩ := p
  simp only [colGroup, List.mem_map, List.mem_range, Prod.mk.injEq]
  constructor
  · rintro ⟨r, hr, rfl, rfl⟩
    exact ⟨rfl, hr⟩
  · rintro ⟨rfl, ha⟩
    exact ⟨a, ha, rfl, rfl⟩

theorem mem_blockGroup {s br bc : Nat} {p : Nat × Nat} :
    p ∈ blockGroup s br bc ↔ ∃ i, i < s ∧ ∃ j, j < s ∧ p = (br * s + i, bc * s + j) := by
  simp only [blockGroup, List.mem_flatMap, List.mem_map, List.mem_range]
  constructor
  · rintro ⟨i, hi, j, hj, rfl⟩
    exact ⟨i, hi, j, hj, rfl⟩
  · rintro ⟨i, hi, j, hj, rfl⟩
    exact ⟨i, hi, j, hj, rfl⟩

theorem nodup_rowGroup (N r : Nat) : (rowGroup N r).Nodup := by
  unfold rowGroup
  apply List.Nodup.map _ (List.nodup_range N)
  intro a b h
  simpa using h

theorem nodup_colGroup (N c : Nat) : (colGroup N c).Nodup := by
  unfold colGroup
  apply List.Nodup.map _ (List.nodup_range N)
  intro a b h
  simpa using h

theorem nodup_blockGroup (s br bc : Nat) : (blockGroup s br bc).Nodup := by
  unfold blockGroup
  rw [List.nodup_flatMap]
  constructor
  · intro i _
    apply List.Nodup.map _ (List.nodup_range s)
    intro a b h
    simpa using h
  · apply List.Pairwise.imp _ (List.nodup_range s)
    intro a b hab
    simp only [Function.onFun]
    intro p hp hq
    rcases List.mem_map.mp hp with ⟨j, _, rfl⟩
    rcases List.mem_map.mp hq with ⟨k, _, hk⟩
    simp only [Prod.mk.injEq] at hk
    omega

theorem nodup_of_mem_groups {N : Nat} {G : List (Nat × Nat)} (hG : G ∈ groups N) : G.Nodup := by
  rcases mem_groups.mp hG with ⟨i, _, rfl⟩ | ⟨i, _, rfl⟩ | ⟨br, _, bc, _, rfl⟩
  · exact nodup_rowGroup N i
  · exact nodup_colGroup N i
  · exact nodup_blockGroup _ br bc

theorem distinctValues_iff {g : Grid} {G : List (Nat × Nat)} (hG : G.Nodup) :
    DistinctValues g G ↔ ¬ HasDuplicate g G := by
  unfold DistinctValues HasDuplicate
  rw [List.pairwise_map]
  constructor
  · intro h
    rintro ⟨p, hp, q, hq, hne, h0, heq⟩
    have hsymm : Symmetric (fun a b : Nat × Nat =>
        ¬ (cell g a.1 a.2 = cell g b.1 b.2 ∧ cell g a.1 a.2 ≠ 0)) := by
      intro a b hab hba
      exact hab ⟨hba.1.symm, fun h => hba.2 (hba.1.trans h)⟩
    exact h.forall hsymm hp hq hne ⟨heq, h0⟩
  · intro h
    apply hG.pairwise_of_forall_ne
    intro a ha b hb hne hab
    exact h ⟨a, ha, b, hb, hne, hab.2, hab.1⟩

theorem structurallyValid_iff {N : Nat} {g : Grid} :
    StructurallyValid N g ↔ ∀ G, G ∈ groups N → DistinctValues g G := by
  unfold StructurallyValid
  constructor
  · intro h G hG
    exact (distinctValues_iff (nodup_of_mem_groups hG)).mpr (h G hG)
  · intro h G hG
    exact (distinctValues_iff (nodup_of_mem_groups hG)).mp (h G hG)

/-! ## `findUnassignedCell` -/

theorem findUnassignedCellCols_spec {N : Nat} {g : Grid} (hg : IsGrid N g) {i : Nat}
    (hi : i < N) :
    ∀ (l : List Nat), (∀ j, j ∈ l → j < N) →
      (findUnassignedCellCols g i l = some none ∧ ∀ j, j ∈ l → cell g i j ≠ 0) ∨
        ∃ j, j ∈ l ∧ findUnassignedCellCols g i l = some (some j) ∧ cell g i j = 0 := by
  intro l
  induction l with
  | nil =>
    intro _
    left
    exact ⟨rfl, by simp⟩
  | cons j rest ih =>
    intro hl
    have hj : j < N := hl j (List.mem_cons_self _ _)
    have hrest : ∀ k, k ∈ rest → k < N := fun k hk => hl k (List.mem_cons_of_mem _ hk)
    unfold findUnassignedCellCols
    rw [readCell_isGrid hg hi hj]
    simp only
    by_cases h0 : cell g i j = 0
    · right
      exact ⟨j, List.mem_cons_self _ _, by rw [if_pos h0], h0⟩
    · rw [if_neg h0]
      rcases ih hrest with ⟨h1, h2⟩ | ⟨k, hk, h1, h2⟩
      · left
        refine ⟨h1, ?_⟩
        intro k hk
        rcases List.mem_cons.mp hk with rfl | hk
        · exact h0
        · exact h2 k hk
      · right
        exact ⟨k, List.mem_cons_of_mem _ hk, h1, h2⟩

theorem findUnassignedCellRows_spec {N : Nat} {g : Grid} (hg : IsGrid N g) :
    ∀ (l : List Nat), (∀ i, i ∈ l → i < N) →
      (findUnassignedCellRows g N l = some none ∧ ∀ i, i ∈ l → ∀ j, j < N → cell g i j ≠ 0) ∨
        ∃ i j, i ∈ l ∧ j < N ∧ findUnassignedCellRows g N l = some (some (i, j)) ∧
          cell g i j = 0 := by
  intro l
  induction l with
  | nil =>
    intro _
    left
    exact ⟨rfl, by simp⟩
  | cons i rest ih =>
    intro hl
    have hi : i < N := hl i (List.mem_cons_self _ _)
    have hrest : ∀ k, k ∈ rest → k < N := fun k hk => hl k (List.mem_cons_of_mem _ hk)
    unfold findUnassignedCellRows
    rcases findUnassignedCellCols_spec hg hi (List.range N) (fun j hj => List.mem_range.mp hj)
      with ⟨h1, h2⟩ | ⟨j, hj, h1, h2⟩
    · rw [h1]
      simp only
      rcases ih hrest with ⟨h3, h4⟩ | ⟨k, j, hk, hj, h3, h4⟩
      · left
        refine ⟨h3, ?_⟩
        intro k hk j hj
        rcases List.mem_cons.mp hk with rfl | hk
        · exact h2 j (List.mem_range.mpr hj)
        · exact h4 k hk j hj
      · right
        exact ⟨k, j, List.mem_cons_of_mem _ hk, hj, h3, h4⟩
    · rw [h1]
      right
      exact ⟨i, j, List.mem_cons_self _ _, List.mem_range.mp hj, rfl, h2⟩

theorem findUnassignedCell_spec {N : Nat} {g : Grid} (hg : IsGrid N g) :
    (findUnassignedCell g N = some none ∧ Complete N g) ∨
      ∃ r c, r < N ∧ c < N ∧ findUnassignedCell g N = some (some (r, c)) ∧ cell g r c = 0 := by
  unfold findUnassignedCell
  rcases findUnassignedCellRows_spec hg (List.range N) (fun i hi => List.mem_range.mp hi)
    with ⟨h1, h2⟩ | ⟨i, j, hi, hj, h1, h2⟩
  · left
    exact ⟨h1, fun i hi j hj => h2 i (List.mem_range.mpr hi) j hj⟩
  · right
    exact ⟨i, j, List.mem_range.mp hi, hj, h1, h2⟩

/-! ## `isValid` -/

theorem isValidLines_spec {N : Nat} {g : Grid} (hg : IsGrid N g) {r c : Nat} (hr : r < N)
    (hc : c < N) (num : Int) :
    ∀ (l : List Nat), (∀ i, i ∈ l → i < N) →
      ∃ b, isValidLines g r c num l = some b ∧
        (b = true ↔ ∀ i, i ∈ l → cell g r i ≠ num ∧ cell g i c ≠ num) := by
  intro l
  induction l with
  | nil =>
    intro _
    exact ⟨true, rfl, by simp⟩
  | cons i rest ih =>
    intro hl
    have hi : i < N := hl i (List.mem_cons_self _ _)
    have hrest : ∀ k, k ∈ rest → k < N := fun k hk => hl k (List.mem_cons_of_mem _ hk)
    unfold isValidLines
    rw [readCell_isGrid hg hr hi]
    simp only
    by_cases h1 : cell g r i = num
    · rw [if_pos h1]
      refine ⟨false, rfl, ?_⟩
      simp only [Bool.false_eq_true, false_iff]
      intro h
      exact (h i (List.mem_cons_self _ _)).1 h1
    · rw [if_neg h1, readCell_isGrid hg hi hc]
      simp only
      by_cases h2 : cell g i c = num
      · rw [if_pos h2]
        refine ⟨false, rfl, ?_⟩
        simp only [Bool.false_eq_true, false_iff]
        intro h
        exact (h i (List.mem_cons_self _ _)).2 h2
      · rw [if_neg h2]
        obtain ⟨b, hb, hiff⟩ := ih hrest
        refine ⟨b, hb, ?_⟩
        rw [hiff]
        simp only [List.mem_cons, forall_eq_or_imp]
        constructor
        · exact fun h => ⟨⟨h1, h2⟩, h⟩
        · exact fun h => h.2

theorem isValidBlockInner_spec {N : Nat} {g : Grid} (hg : IsGrid N g) {sr sc i : Nat}
    (hi : sr + i < N) (num : Int) :
    ∀ (l : List Nat), (∀ j, j ∈ l → sc + j < N) →
      ∃ b, isValidBlockInner g sr sc num i l = some b ∧
        (b = true ↔ ∀ j, j ∈ l → cell g (sr + i) (sc + j) ≠ num) := by
  intro l
  induction l with
  | nil =>
    intro _
    exact ⟨true, rfl, by simp⟩
  | cons j rest ih =>
    intro hl
    have hj : sc + j < N := hl j (List.mem_cons_self _ _)
    have hrest : ∀ k, k ∈ rest → sc + k < N := fun k hk => hl k (List.mem_cons_of_mem _ hk)
    unfold isValidBlockInner
    rw [readCell_isGrid hg hi hj]
    simp only
    by_cases h1 : cell g (sr + i) (sc + j) = num
    · rw [if_pos h1]
      refine ⟨false, rfl, ?_⟩
      simp only [Bool.false_eq_true, false_iff]
      intro h
      exact h j (List.mem_cons_self _ _) h1
    · rw [if_neg h1]
      obtain ⟨b, hb, hiff⟩ := ih hrest
      refine ⟨b, hb, ?_⟩
      rw [hiff]
      simp only [List.mem_cons, forall_eq_or_imp]
      constructor
      · exact fun h => ⟨h1, h⟩
      · exact fun h => h.2

theorem isValidBlockOuter_spec {N : Nat} {g : Grid} (hg : IsGrid N g) {sr sc s : Nat}
    (hc : ∀ j, j < s → sc + j < N) (num : Int) :
    ∀ (l : List Nat), (∀ i, i ∈ l → sr + i < N) →
      ∃ b, isValidBlockOuter g sr sc num s l = some b ∧
        (b = true ↔ ∀ i, i ∈ l → ∀ j, j < s → cell g (sr + i) (sc + j) ≠ num) := by
  intro l
  induction l with
  | nil =>
    intro _
    exact ⟨true, rfl, by simp⟩
  | cons i rest ih =>
    intro hl
    have hi : sr + i < N := hl i (List.mem_cons_self _ _)
    have hrest : ∀ k, k ∈ rest → sr + k < N := fun k hk => hl k (List.mem_cons_of_mem _ hk)
    unfold isValidBlockOuter
    obtain ⟨b0, hb0, hiff0⟩ := isValidBlockInner_spec hg hi num (List.range s)
      (fun j hj => hc j (List.mem_range.mp hj))
    rw [hb0]
    cases b0 with
    | false =>
      refine ⟨false, rfl, ?_⟩
      simp only [Bool.false_eq_true, false_iff]
      intro h
      have : false = true :=
        hiff0.mpr (fun j hj => h i (List.mem_cons_self _ _) j (List.mem_range.mp hj))
      exact absurd this (by simp)
    | true =>
      simp only
      obtain ⟨b, hb, hiff⟩ := ih hrest
      refine ⟨b, hb, ?_⟩
      rw [hiff]
      simp only [List.mem_cons, forall_eq_or_imp]
      constructor
      · exact fun h => ⟨fun j hj => hiff0.mp rfl j (List.mem_range.mpr hj), h⟩
      · exact fun h => h.2

theorem div_lt_of_lt_sq {s r : Nat} (h : r < s * s) : r / s < s := by
  have hs : 0 < s := by
    rcases Nat.eq_zero_or_pos s with h0 | h0
    · subst h0; simp at h
    · exact h0
  exact (Nat.div_lt_iff_lt_mul hs).mpr h

/-- The three groups that contain the cell `(r, c)`. -/
theorem isValid_spec {N s : Nat} (hN : N = s * s) {g : Grid} (hg : IsGrid N g) {r c : Nat}
    (hr : r < N) (hc : c < N) (num : Int) :
    ∃ b, isValid g r c num N = some b ∧
      (b = true ↔ (∀ p, p ∈ rowGroup N r → cell g p.1 p.2 ≠ num) ∧
        (∀ p, p ∈ colGroup N c → cell g p.1 p.2 ≠ num) ∧
        ∀ p, p ∈ blockGroup s (r / s) (c / s) → cell g p.1 p.2 ≠ num) := by
  have hsq : intSqrt N = s := by rw [hN]; exact intSqrt_sq s
  have hs : 0 < s := by
    rcases Nat.eq_zero_or_pos s with h0 | h0
    · subst h0; omega
    · exact h0
  have hbr : r / s < s := div_lt_of_lt_sq (by omega)
  have hbc : c / s < s := div_lt_of_lt_sq (by omega)
  obtain ⟨b0, hb0, hiff0⟩ := isValidLines_spec hg hr hc num (List.range N)
    (fun i hi => List.mem_range.mp hi)
  unfold isValid
  simp only
  rw [hb0, hsq]
  cases b0 with
  | false =>
    refine ⟨false, rfl, ?_⟩
    simp only [Bool.false_eq_true, false_iff]
    rintro ⟨h1, h2, -⟩
    have : false = true := hiff0.mpr (fun i hi =>
      ⟨h1 (r, i) (mem_rowGroup.mpr ⟨rfl, List.mem_range.mp hi⟩),
       h2 (i, c) (mem_colGroup.mpr ⟨rfl, List.mem_range.mp hi⟩)⟩)
    exact absurd this (by simp)
  | true =>
    simp only
    rw [if_neg (by omega)]
    have hlines := hiff0.mp rfl
    have hcols : ∀ j, j < s → c / s * s + j < N := fun j hj => by
      rw [hN]; exact block_bound hbc hj
    have hrows : ∀ i, i ∈ List.range s → r / s * s + i < N := fun i hi => by
      rw [hN]; exact block_bound hbr (List.mem_range.mp hi)
    obtain ⟨b, hb, hiff⟩ := isValidBlockOuter_spec hg hcols num (List.range s) hrows
    refine ⟨b, hb, ?_⟩
    rw [hiff]
    constructor
    · intro h
      refine ⟨?_, ?_, ?_⟩
      · intro p hp
        obtain ⟨h1, h2⟩ := mem_rowGroup.mp hp
        have := (hlines p.2 (List.mem_range.mpr h2)).1
        rw [← h1] at this
        exact this
      · intro p hp
        obtain ⟨h1, h2⟩ := mem_colGroup.mp hp
        have := (hlines p.1 (List.mem_range.mpr h2)).2
        rw [← h1] at this
        exact this
      · intro p hp
        obtain ⟨i, hi, j, hj, rfl⟩ := mem_blockGroup.mp hp
        exact h i (List.mem_range.mpr hi) j hj
    · rintro ⟨-, -, h⟩ i hi j hj
      exact h (r / s * s + i, c / s * s + j)
        (mem_blockGroup.mpr ⟨i, List.mem_range.mp hi, j, hj, rfl⟩)

/-! ## Placing a value -/

theorem block_of_mem {s br bc r c : Nat} (h : (r, c) ∈ blockGroup s br bc) :
    br = r / s ∧ bc = c / s := by
  obtain ⟨i, hi, j, hj, he⟩ := mem_blockGroup.mp h
  simp only [Prod.mk.injEq] at he
  obtain ⟨rfl, rfl⟩ := he
  have hs : 0 < s := by omega
  constructor
  · rw [Nat.add_comm, Nat.add_mul_div_right _ _ hs, Nat.div_eq_of_lt hi, Nat.zero_add]
  · rw [Nat.add_comm, Nat.add_mul_div_right _ _ hs, Nat.div_eq_of_lt hj, Nat.zero_add]

/-- If `isValid` accepts `num` for the blank cell `(r, c)`, no group that
contains the cell holds `num`. -/
theorem not_mem_group_of_isValid {N s : Nat} (hN : N = s * s) {g : Grid} (hg : IsGrid N g)
    {r c : Nat} (hr : r < N) (hc : c < N) {num : Int}
    (hv : isValid g r c num N = some true) {G : List (Nat × Nat)} (hG : G ∈ groups N)
    (hmem : (r, c) ∈ G) : ∀ p, p ∈ G → cell g p.1 p.2 ≠ num := by
  have hsq : intSqrt N = s := by rw [hN]; exact intSqrt_sq s
  obtain ⟨b, hb, hiff⟩ := isValid_spec hN hg hr hc num
  rw [hv] at hb
  injection hb with hb
  obtain ⟨h1, h2, h3⟩ := hiff.mp hb.symm
  rcases mem_groups.mp hG with ⟨i, _, rfl⟩ | ⟨i, _, rfl⟩ | ⟨br, _, bc, _, rfl⟩
  · obtain ⟨he, _⟩ := mem_rowGroup.mp hmem
    simp only at he
    subst he
    exact h1
  · obtain ⟨he, _⟩ := mem_colGroup.mp hmem
    simp only at he
    subst he
    exact h2
  · rw [hsq] at hmem ⊢
    obtain ⟨e1, e2⟩ := block_of_mem hmem
    subst e1 e2
    exact h3

/-- The three groups of a cell are groups of the puzzle. -/
theorem groups_of_cell {N s : Nat} (hN : N = s * s) {r c : Nat} (hr : r < N) (hc : c < N) :
    rowGroup N r ∈ groups N ∧ colGroup N c ∈ groups N ∧
      blockGroup s (r / s) (c / s) ∈ groups N := by
  have hsq : intSqrt N = s := by rw [hN]; exact intSqrt_sq s
  refine ⟨mem_groups.mpr (Or.inl ⟨r, hr, rfl⟩), mem_groups.mpr (Or.inr (Or.inl ⟨c, hc, rfl⟩)),
    mem_groups.mpr (Or.inr (Or.inr ?_))⟩
  rw [hsq]
  exact ⟨r / s, div_lt_of_lt_sq (by omega), c / s, div_lt_of_lt_sq (by omega), rfl⟩

theorem mem_own_block {s r c : Nat} (hs : 0 < s) : (r, c) ∈ blockGroup s (r / s) (c / s) := by
  apply mem_blockGroup.mpr
  refine ⟨r % s, Nat.mod_lt _ hs, c % s, Nat.mod_lt _ hs, ?_⟩
  simp only [Prod.mk.injEq]
  constructor
  · rw [Nat.mul_comm]; exact (Nat.div_add_mod r s).symm
  · rw [Nat.mul_comm]; exact (Nat.div_add_mod c s).symm

theorem mem_group_bound {N s : Nat} (hN : N = s * s) {G : List (Nat × Nat)}
    (hG : G ∈ groups N) {p : Nat × Nat} (hp : p ∈ G) : p.1 < N ∧ p.2 < N := by
  have hsq : intSqrt N = s := by rw [hN]; exact intSqrt_sq s
  rcases mem_groups.mp hG with ⟨i, hi, rfl⟩ | ⟨i, hi, rfl⟩ | ⟨br, hbr, bc, hbc, rfl⟩
  · obtain ⟨h1, h2⟩ := mem_rowGroup.mp hp
    exact ⟨by omega, h2⟩
  · obtain ⟨h1, h2⟩ := mem_colGroup.mp hp
    exact ⟨h2, by omega⟩
  · rw [hsq] at hp hbr hbc
    obtain ⟨i, hi, j, hj, rfl⟩ := mem_blockGroup.mp hp
    rw [hN]
    exact ⟨block_bound hbr hi, block_bound hbc hj⟩

/-- Placing a value that `isValid` accepts into a blank cell keeps the grid
structurally valid. -/
theorem structurallyValid_place {N s : Nat} (hN : N = s * s) {g g1 : Grid} (hg : IsGrid N g)
    {r c : Nat} (hr : r < N) (hc : c < N) {num : Int}
    (hv : isValid g r c num N = some true)
    (hcell : ∀ a b, cell g1 a b = if a = r ∧ b = c then num else cell g a b)
    (hvalid : StructurallyValid N g) : StructurallyValid N g1 := by
  intro G hG
  rintro ⟨p, hp, q, hq, hne, hp0, heq⟩
  obtain ⟨p1, p2⟩ := p
  obtain ⟨q1, q2⟩ := q
  simp only at hp0 heq
  rw [hcell] at hp0
  rw [hcell, hcell] at heq
  by_cases hpc : p1 = r ∧ p2 = c
  · obtain ⟨rfl, rfl⟩ := hpc
    have hqc : ¬ (q1 = p1 ∧ q2 = p2) := by
      rintro ⟨rfl, rfl⟩
      exact hne rfl
    rw [if_pos ⟨rfl, rfl⟩, if_neg hqc] at heq
    exact not_mem_group_of_isValid hN hg hr hc hv hG hp (q1, q2) hq heq.symm
  · rw [if_neg hpc] at hp0 heq
    by_cases hqc : q1 = r ∧ q2 = c
    · obtain ⟨rfl, rfl⟩ := hqc
      rw [if_pos ⟨rfl, rfl⟩] at heq
      exact not_mem_group_of_isValid hN hg hr hc hv hG hq (p1, p2) hp heq
    · rw [if_neg hqc] at heq
      exact hvalid G hG ⟨(p1, p2), hp, (q1, q2), hq, hne, hp0, heq⟩

/-- A value that `isValid` rejects for the blank cell `(r, c)` is not the value
of that cell in any completion. -/
theorem completion_ne_of_isValid_false {N s : Nat} (hN : N = s * s) {g : Grid}
    (hg : IsGrid N g) {r c : Nat} (hr : r < N) (hc : c < N) (h0 : cell g r c = 0) {num : Int}
    (hnum : num ≠ 0) (hv : isValid g r c num N = some false) {S : Grid}
    (hS : Completion N g S) : cell S r c ≠ num := by
  obtain ⟨-, hSv, hSe⟩ := hS
  have hs : 0 < s := by
    rcases Nat.eq_zero_or_pos s with h | h
    · subst h; omega
    · exact h
  obtain ⟨b, hb, hiff⟩ := isValid_spec hN hg hr hc num
  rw [hv] at hb
  injection hb with hb
  subst hb
  obtain ⟨hrow, hcol, hblk⟩ := groups_of_cell hN hr hc
  intro hSrc
  have key : ∀ G, G ∈ groups N → (r, c) ∈ G → ∀ p, p ∈ G → cell g p.1 p.2 ≠ num := by
    intro G hG hmem p hp hpn
    have hpb := mem_group_bound hN hG hp
    have hpne : p ≠ (r, c) := by
      rintro rfl
      simp only at hpn
      rw [h0] at hpn
      exact hnum hpn.symm
    have hSp : cell S p.1 p.2 = num := by
      rw [hSe p.1 hpb.1 p.2 hpb.2 (by rw [hpn]; exact hnum), hpn]
    exact hSv G hG ⟨p, hp, (r, c), hmem, hpne, by rw [hSp]; exact hnum, by rw [hSp, hSrc]⟩
  have : false = true := hiff.mpr
    ⟨key _ hrow (mem_rowGroup.mpr ⟨rfl, hc⟩), key _ hcol (mem_colGroup.mpr ⟨rfl, hr⟩),
     key _ hblk (mem_own_block hs)⟩
  exact absurd this (by simp)

/-! ## The search -/

theorem extends_refl (N : Nat) (g : Grid) : Extends N g g := fun _ _ _ _ _ => rfl

theorem goodResult_of_place {N s : Nat} (hN : N = s * s) {g g1 R : Grid} (hg : IsGrid N g)
    {r c : Nat} (hr : r < N) (hc : c < N) (h0 : cell g r c = 0) {n : Nat}
    (hn : 1 ≤ n ∧ n ≤ N) (hv : isValid g r c (n : Int) N = some true)
    (hcell : ∀ a b, cell g1 a b = if a = r ∧ b = c then (n : Int) else cell g a b)
    (hR : GoodResult N g1 R) : GoodResult N g R := by
  obtain ⟨h1, h2, h3, h4, h5⟩ := hR
  refine ⟨h1, h2, ?_, ?_, ?_⟩
  · intro i hi j hj hij
    have hne : ¬ (i = r ∧ j = c) := by
      rintro ⟨rfl, rfl⟩
      exact hij h0
    have e : cell g1 i j = cell g i j := by rw [hcell, if_neg hne]
    rw [← e]
    exact h3 i hi j hj (by rw [e]; exact hij)
  · intro hvalid
    exact h4 (structurallyValid_place hN hg hr hc hv hcell hvalid)
  · intro hrange
    apply h5
    intro i hi j hj
    rw [hcell]
    by_cases hij : i = r ∧ j = c
    · rw [if_pos hij]
      omega
    · rw [if_neg hij]
      exact hrange i hi j hj

theorem completion_of_place {N : Nat} {g g1 S : Grid} {r c : Nat} (hr : r < N) (hc : c < N)
    {v : Int} (hcell : ∀ a b, cell g1 a b = if a = r ∧ b = c then v else cell g a b)
    (hS : Completion N g S) (hSv : cell S r c = v) : Completion N g1 S := by
  obtain ⟨h1, h2, h3⟩ := hS
  refine ⟨h1, h2, ?_⟩
  intro i hi j hj hij
  rw [hcell] at hij ⊢
  by_cases he : i = r ∧ j = c
  · obtain ⟨rfl, rfl⟩ := he
    rw [if_pos ⟨rfl, rfl⟩]
    exact hSv
  · rw [if_neg he] at hij ⊢
    exact h3 i hi j hj hij

theorem solveSudokuLoop_spec {N s : Nat} (hN : N = s * s) (recurse : Grid → SolveResult)
    (k : Nat)
    (hrec : ∀ g1, IsGrid N g1 → blankCount g1 < k → SolveSpec N g1 (recurse g1))
    {g : Grid} (hg : IsGrid N g) (hk : blankCount g ≤ k) {r c : Nat} (hr : r < N) (hc : c < N)
    (h0 : cell g r c = 0) :
    ∀ (nums : List Nat), (∀ n, n ∈ nums → 1 ≤ n ∧ n ≤ N) →
      ∃ b R, solveSudokuLoop recurse N r c nums g = SolveResult.done b R ∧
        (b = true → GoodResult N g R) ∧
        (b = false → R = g ∧
          ∀ S, Completion N g S → ∀ n, n ∈ nums → cell S r c ≠ (n : Int)) := by
  intro nums
  induction nums with
  | nil =>
    intro _
    exact ⟨false, g, rfl, by simp, fun _ => ⟨rfl, by simp⟩⟩
  | cons n rest ih =>
    intro hnums
    have hn : 1 ≤ n ∧ n ≤ N := hnums n (List.mem_cons_self _ _)
    have hrest : ∀ m, m ∈ rest → 1 ≤ m ∧ m ≤ N := fun m hm =>
      hnums m (List.mem_cons_of_mem _ hm)
    have hn0 : (n : Int) ≠ 0 := by omega
    have hread : readCell g r c = some 0 := by rw [readCell_isGrid hg hr hc, h0]
    obtain ⟨b, R, hloop, htrue, hfalse⟩ := ih hrest
    unfold solveSudokuLoop
    obtain ⟨bv, hbv, -⟩ := isValid_spec hN hg hr hc (n : Int)
    rw [hbv]
    cases bv with
    | false =>
      simp only
      refine ⟨b, R, hloop, htrue, ?_⟩
      intro hb
      refine ⟨(hfalse hb).1, ?_⟩
      intro S hS m hm
      rcases List.mem_cons.mp hm with rfl | hm
      · exact completion_ne_of_isValid_false hN hg hr hc h0 hn0 hbv hS
      · exact (hfalse hb).2 S hS m hm
    | true =>
      simp only
      obtain ⟨g1, hw, hg1, hcell⟩ := writeCell_isGrid hg hr hc (n : Int)
      rw [hw]
      simp only
      have hcount := blankCount_writeCell hread hn0 hw
      obtain ⟨b1, R1, hres, h1true, h1false⟩ := hrec g1 hg1 (by omega)
      rw [hres]
      cases b1 with
      | true =>
        simp only
        exact ⟨true, R1, rfl, fun _ => goodResult_of_place hN hg hr hc h0 hn hbv hcell
          (h1true rfl), by simp⟩
      | false =>
        simp only
        obtain ⟨hR1, hnone⟩ := h1false rfl
        subst hR1
        rw [writeCell_undo hread hw]
        simp only
        refine ⟨b, R, hloop, htrue, ?_⟩
        intro hb
        refine ⟨(hfalse hb).1, ?_⟩
        intro S hS m hm
        rcases List.mem_cons.mp hm with rfl | hm
        · intro hSv
          exact hnone S (completion_of_place hr hc hcell hS hSv)
        · exact (hfalse hb).2 S hS m hm

/-- The contract of `solveSudoku`, for every fuel above the number of blanks. -/
theorem solveSudoku_spec {N s : Nat} (hN : N = s * s) :
    ∀ (fuel : Nat) (g : Grid), IsGrid N g → blankCount g < fuel →
      SolveSpec N g (solveSudoku fuel g N) := by
  intro fuel
  induction fuel with
  | zero =>
    intro g _ h
    omega
  | succ fuel ih =>
    intro g hg hfuel
    unfold solveSudoku
    rcases findUnassignedCell_spec hg with ⟨hf, hcomplete⟩ | ⟨r, c, hr, hc, hf, h0⟩
    · rw [hf]
      simp only
      refine ⟨true, g, rfl, fun _ => ⟨hg, hcomplete, extends_refl N g, fun h => h, ?_⟩, by simp⟩
      intro hrange i hi j hj
      have h1 := hrange i hi j hj
      have h2 := hcomplete i hi j hj
      omega
    · rw [hf]
      simp only
      obtain ⟨b, R, hloop, htrue, hfalse⟩ := solveSudokuLoop_spec hN
        (fun g1 => solveSudoku fuel g1 N) fuel ih hg (by omega) hr hc h0 (List.range' 1 N)
        (fun n hn => by
          have := List.mem_range'_1.mp hn
          omega)
      refine ⟨b, R, hloop, htrue, ?_⟩
      intro hb
      refine ⟨(hfalse hb).1, ?_⟩
      intro S hS
      have hfill := hS.1 r hr c hc
      have hmem : (cell S r c).toNat ∈ List.range' 1 N := by
        apply List.mem_range'_1.mpr
        omega
      apply (hfalse hb).2 S hS _ hmem
      omega

/-! ## Restoring the grid, and fuel -/

/-- A failed search hands the grid back as it received it. -/
theorem solveSudokuLoop_restores (recurse : Grid → SolveResult)
    (hrec : ∀ g1 R1, recurse g1 = SolveResult.done false R1 → R1 = g1) (size r c : Nat) :
    ∀ (nums : List Nat) (g R : Grid), readCell g r c = some 0 →
      solveSudokuLoop recurse size r c nums g = SolveResult.done false R → R = g := by
  intro nums
  induction nums with
  | nil =>
    intro g R _ h
    unfold solveSudokuLoop at h
    injection h with _ h
    exact h.symm
  | cons n rest ih =>
    intro g R hread h
    unfold solveSudokuLoop at h
    cases hv : isValid g r c (n : Int) size with
    | none => rw [hv] at h; simp at h
    | some bv =>
      rw [hv] at h
      cases bv with
      | false => exact ih g R hread h
      | true =>
        simp only at h
        cases hw : writeCell g r c (n : Int) with
        | none => rw [hw] at h; simp at h
        | some g1 =>
          rw [hw] at h
          simp only at h
          cases hres : recurse g1 with
          | fault => rw [hres] at h; simp at h
          | outOfFuel => rw [hres] at h; simp at h
          | done b1 R1 =>
            rw [hres] at h
            cases b1 with
            | true => simp at h
            | false =>
              simp only at h
              have := hrec g1 R1 hres
              subst this
              rw [writeCell_undo hread hw] at h
              exact ih g R hread h

theorem findUnassignedCellCols_blank (g : Grid) (i : Nat) :
    ∀ (l : List Nat) (j : Nat), findUnassignedCellCols g i l = some (some j) →
      readCell g i j = some 0 := by
  intro l
  induction l with
  | nil =>
    intro j h
    simp [findUnassignedCellCols] at h
  | cons k rest ih =>
    intro j h
    unfold findUnassignedCellCols at h
    cases hread : readCell g i k with
    | none => rw [hread] at h; simp at h
    | some v =>
      rw [hread] at h
      simp only at h
      by_cases hv : v = 0
      · rw [if_pos hv] at h
        injection h with h
        injection h with h
        subst h
        rw [hread, hv]
      · rw [if_neg hv] at h
        exact ih j h

theorem findUnassignedCellRows_blank (g : Grid) (size : Nat) :
    ∀ (l : List Nat) (r c : Nat), findUnassignedCellRows g size l = some (some (r, c)) →
      readCell g r c = some 0 := by
  intro l
  induction l with
  | nil =>
    intro r c h
    simp [findUnassignedCellRows] at h
  | cons i rest ih =>
    intro r c h
    unfold findUnassignedCellRows at h
    cases hcols : findUnassignedCellCols g i (List.range size) with
    | none => rw [hcols] at h; simp at h
    | some o =>
      rw [hcols] at h
      cases o with
      | none => exact ih r c h
      | some j =>
        simp only at h
        injection h with h
        injection h with h
        injection h with h1 h2
        subst h1 h2
        exact findUnassignedCellCols_blank g i _ j hcols

theorem findUnassignedCell_blank {g : Grid} {size r c : Nat}
    (h : findUnassignedCell g size = some (some (r, c))) : readCell g r c = some 0 :=
  findUnassignedCellRows_blank g size _ r c h

theorem solveSudoku_restores (size : Nat) :
    ∀ (fuel : Nat) (g R : Grid), solveSudoku fuel g size = SolveResult.done false R → R = g := by
  intro fuel
  induction fuel with
  | zero =>
    intro g R h
    simp [solveSudoku] at h
  | succ fuel ih =>
    intro g R h
    unfold solveSudoku at h
    cases hf : findUnassignedCell g size with
    | none => rw [hf] at h; simp at h
    | some o =>
      rw [hf] at h
      cases o with
      | none => simp at h
      | some p =>
        obtain ⟨r, c⟩ := p
        simp only at h
        exact solveSudokuLoop_restores _ (fun g1 R1 h1 => ih g1 R1 h1) size r c _ g R
          (findUnassignedCell_blank hf) h

/-- More fuel never changes the result of a search that has finished. -/
theorem solveSudokuLoop_mono (rec1 rec2 : Grid → SolveResult)
    (hrec : ∀ g1 b1 R1, rec1 g1 = SolveResult.done b1 R1 → rec2 g1 = SolveResult.done b1 R1)
    (size r c : Nat) :
    ∀ (nums : List Nat) (g : Grid) (b : Bool) (R : Grid),
      solveSudokuLoop rec1 size r c nums g = SolveResult.done b R →
      solveSudokuLoop rec2 size r c nums g = SolveResult.done b R := by
  intro nums
  induction nums with
  | nil =>
    intro g b R h
    unfold solveSudokuLoop at h ⊢
    exact h
  | cons n rest ih =>
    intro g b R h
    unfold solveSudokuLoop at h ⊢
    cases hv : isValid g r c (n : Int) size with
    | none => rw [hv] at h; simp at h
    | some bv =>
      rw [hv] at h
      cases bv with
      | false => exact ih g b R h
      | true =>
        simp only at h ⊢
        cases hw : writeCell g r c (n : Int) with
        | none => rw [hw] at h; simp at h
        | some g1 =>
          rw [hw] at h
          simp only at h ⊢
          cases hres : rec1 g1 with
          | fault => rw [hres] at h; simp at h
          | outOfFuel => rw [hres] at h; simp at h
          | done b1 R1 =>
            rw [hres] at h
            rw [hrec g1 b1 R1 hres]
            cases b1 with
            | true => exact h
            | false =>
              simp only at h ⊢
              cases hu : writeCell R1 r c 0 with
              | none => rw [hu] at h; simp at h
              | some g2 =>
                rw [hu] at h
                simp only at h ⊢
                exact ih g2 b R h

theorem solveSudoku_fuel_succ (size : Nat) :
    ∀ (fuel : Nat) (g : Grid) (b : Bool) (R : Grid),
      solveSudoku fuel g size = SolveResult.done b R →
      solveSudoku (fuel + 1) g size = SolveResult.done b R := by
  intro fuel
  induction fuel with
  | zero =>
    intro g b R h
    simp [solveSudoku] at h
  | succ fuel ih =>
    intro g b R h
    unfold solveSudoku at h ⊢
    cases hf : findUnassignedCell g size with
    | none => rw [hf] at h; simp at h
    | some o =>
      rw [hf] at h
      cases o with
      | none => exact h
      | some p =>
        obtain ⟨r, c⟩ := p
        simp only at h ⊢
        exact solveSudokuLoop_mono _ _ (fun g1 b1 R1 h1 => ih g1 b1 R1 h1) size r c _ g b R h

theorem solveSudoku_fuel_mono (size : Nat) {fuel fuel1 : Nat} (hle : fuel ≤ fuel1) {g : Grid}
    {b : Bool} {R : Grid} (h : solveSudoku fuel g size = SolveResult.done b R) :
    solveSudoku fuel1 g size = SolveResult.done b R := by
  induction hle with
  | refl => exact h
  | step _ ih => exact solveSudoku_fuel_succ size _ g b R ih

/-! ## Permutations -/

theorem nodup_values {g : Grid} {G : List (Nat × Nat)} (hG : G.Nodup)
    (hfill : ∀ p, p ∈ G → cell g p.1 p.2 ≠ 0) (hd : ¬ HasDuplicate g G) :
    (G.map fun p => cell g p.1 p.2).Nodup := by
  apply List.Nodup.map_on _ hG
  intro p hp q hq heq
  by_contra hne
  exact hd ⟨p, hp, q, hq, hne, hfill p hp, heq⟩

theorem length_of_mem_groups {N s : Nat} (hN : N = s * s) {G : List (Nat × Nat)}
    (hG : G ∈ groups N) : G.length = N := by
  have hsq : intSqrt N = s := by rw [hN]; exact intSqrt_sq s
  rcases mem_groups.mp hG with ⟨i, _, rfl⟩ | ⟨i, _, rfl⟩ | ⟨br, _, bc, _, rfl⟩
  · simp [rowGroup]
  · simp [colGroup]
  · rw [hsq, hN]
    simp [blockGroup, List.length_flatMap, Function.comp_def]

/-- In a grid filled with `1 .. N`, a group without duplicate is a permutation of `1 .. N`. -/
theorem isPermutation_of_valid {N s : Nat} (hN : N = s * s) {g : Grid} (hfill : Filled N g)
    {G : List (Nat × Nat)} (hG : G ∈ groups N) (hd : ¬ HasDuplicate g G) :
    IsPermutation N g G := by
  unfold IsPermutation
  have hnd : (G.map fun p => cell g p.1 p.2).Nodup := by
    apply nodup_values (nodup_of_mem_groups hG) _ hd
    intro p hp
    have hb := mem_group_bound hN hG hp
    have := hfill p.1 hb.1 p.2 hb.2
    omega
  have hsub : (G.map fun p => cell g p.1 p.2) ⊆ (List.range' 1 N).map Int.ofNat := by
    intro v hv
    rcases List.mem_map.mp hv with ⟨p, hp, rfl⟩
    have hb := mem_group_bound hN hG hp
    have hf := hfill p.1 hb.1 p.2 hb.2
    apply List.mem_map.mpr
    refine ⟨(cell g p.1 p.2).toNat, List.mem_range'_1.mpr (by omega), ?_⟩
    simp only [Int.ofNat_eq_coe]
    omega
  apply (List.subperm_of_subset hnd hsub).perm_of_length_le
  simp [length_of_mem_groups hN hG]

/-- A group that is a permutation of `1 .. N` holds no value twice. -/
theorem not_hasDuplicate_of_isPermutation {N : Nat} {g : Grid} {G : List (Nat × Nat)}
    (hp : IsPermutation N g G) : ¬ HasDuplicate g G := by
  unfold IsPermutation at hp
  have hnd : (G.map fun p => cell g p.1 p.2).Nodup := by
    apply hp.nodup_iff.mpr
    apply List.Nodup.map _ (List.nodup_range' 1 N)
    intro a b h
    simpa using h
  rintro ⟨p, hp, q, hq, hne, -, heq⟩
  exact hne (List.inj_on_of_nodup_map hnd hp hq heq)

theorem completion_of_solution {N : Nat} {P S : Grid} (hS : IsSolution N S)
    (hext : Extends N P S) : Completion N P S :=
  ⟨hS.2.1, fun G hG => not_hasDuplicate_of_isPermutation (hS.2.2 G hG), hext⟩

/-- A puzzle with a completion is structurally valid. -/
theorem structurallyValid_of_completion {N s : Nat} (hN : N = s * s) {P S : Grid}
    (hS : Completion N P S) : StructurallyValid N P := by
  obtain ⟨-, hv, hext⟩ := hS
  intro G hG
  rintro ⟨p, hp, q, hq, hne, hp0, heq⟩
  have hpb := mem_group_bound hN hG hp
  have hqb := mem_group_bound hN hG hq
  have e1 := hext p.1 hpb.1 p.2 hpb.2 hp0
  have e2 := hext q.1 hqb.1 q.2 hqb.2 (by rw [← heq]; exact hp0)
  exact hv G hG ⟨p, hp, q, hq, hne, by rw [e1]; exact hp0, by rw [e1, e2]; exact heq⟩

/-! ## Consequences used by the claims -/

theorem inRange_of_filled {N : Nat} {g : Grid} (h : Filled N g) : InRange N g := by
  intro i hi j hj
  have := h i hi j hj
  omega

theorem isValidPuzzle_true_iff {N s : Nat} (hN : N = s * s) {g : Grid} (hg : IsGrid N g)
    (hr : InRange N g) : isValidPuzzle N g = some true ↔ StructurallyValid N g := by
  obtain ⟨b, hb, hiff⟩ := isValidPuzzle_spec hN hg hr
  rw [structurallyValid_iff, ← hiff, hb]
  simp

theorem isValidPuzzle_false_iff {N s : Nat} (hN : N = s * s) {g : Grid} (hg : IsGrid N g)
    (hr : InRange N g) : isValidPuzzle N g = some false ↔ ¬ StructurallyValid N g := by
  obtain ⟨b, hb, hiff⟩ := isValidPuzzle_spec hN hg hr
  rw [structurallyValid_iff, ← hiff, hb]
  cases b <;> simp

/-- Row, column and sub-grid form of structural validity. -/
theorem structurallyValid_iff_by_kind {N s : Nat} (hN : N = s * s) {g : Grid} :
    StructurallyValid N g ↔
      (∀ r, r < N → ¬ HasDuplicate g (rowGroup N r)) ∧
      (∀ c, c < N → ¬ HasDuplicate g (colGroup N c)) ∧
      ∀ br, br < s → ∀ bc, bc < s → ¬ HasDuplicate g (blockGroup s br bc) := by
  have hsq : intSqrt N = s := by rw [hN]; exact intSqrt_sq s
  unfold StructurallyValid
  constructor
  · intro h
    refine ⟨fun r hr => h _ (mem_groups.mpr (Or.inl ⟨r, hr, rfl⟩)),
      fun c hc => h _ (mem_groups.mpr (Or.inr (Or.inl ⟨c, hc, rfl⟩))), ?_⟩
    intro br hbr bc hbc
    apply h
    apply mem_groups.mpr
    right; right
    rw [hsq]
    exact ⟨br, hbr, bc, hbc, rfl⟩
  · rintro ⟨h1, h2, h3⟩ G hG
    rcases mem_groups.mp hG with ⟨i, hi, rfl⟩ | ⟨i, hi, rfl⟩ | ⟨br, hbr, bc, hbc, rfl⟩
    · exact h1 i hi
    · exact h2 i hi
    · rw [hsq] at hbr hbc ⊢
      exact h3 br hbr bc hbc

/-- A grid with a completion is solved by the search, and the result is a
solved grid that the validator accepts. -/
theorem solveSudoku_of_completion {N s : Nat} (hN : N = s * s) {P S : Grid} (hg : IsGrid N P)
    (hr : InRange N P) (hS : Completion N P S) {fuel : Nat} (hfuel : blankCount P < fuel) :
    ∃ R, solveSudoku fuel P N = SolveResult.done true R ∧ IsGrid N R ∧ Complete N R ∧
      Filled N R ∧ Extends N P R ∧ StructurallyValid N R ∧ isValidPuzzle N R = some true := by
  obtain ⟨b, R, hres, htrue, hfalse⟩ := solveSudoku_spec hN fuel P hg hfuel
  cases b with
  | false => exact absurd hS ((hfalse rfl).2 S)
  | true =>
    obtain ⟨h1, h2, h3, h4, h5⟩ := htrue rfl
    have hv := h4 (structurallyValid_of_completion hN hS)
    have hf := h5 hr
    exact ⟨R, hres, h1, h2, hf, h3, hv,
      (isValidPuzzle_true_iff hN h1 (inRange_of_filled hf)).mpr hv⟩

theorem isSolution_of_valid {N s : Nat} (hN : N = s * s) {R : Grid} (hg : IsGrid N R)
    (hf : Filled N R) (hv : StructurallyValid N R) : IsSolution N R :=
  ⟨hg, hf, fun G hG => isPermutation_of_valid hN hf hG (hv G hG)⟩

theorem solveSudoku_done {N s : Nat} (hN : N = s * s) {g : Grid} (hg : IsGrid N g)
    {fuel : Nat} (hfuel : blankCount g < fuel) :
    ∃ b R, solveSudoku fuel g N = SolveResult.done b R := by
  obtain ⟨b, R, hres, -, -⟩ := solveSudoku_spec hN fuel g hg hfuel
  exact ⟨b, R, hres⟩

theorem solveSudoku_complete {N : Nat} {g : Grid} (hg : IsGrid N g) (hc : Complete N g)
    {fuel : Nat} (hfuel : 0 < fuel) : solveSudoku fuel g N = SolveResult.done true g := by
  obtain ⟨k, rfl⟩ : ∃ k, fuel = k + 1 := ⟨fuel - 1, by omega⟩
  unfold solveSudoku
  rcases findUnassignedCell_spec hg with ⟨hf, -⟩ | ⟨r, c, hr, hcc, -, h0⟩
  · rw [hf]
  · exact absurd h0 (hc r hr c hcc)

theorem unsolvable4_not_solvable : ¬ Solvable 4 unsolvable4 := by
  rintro ⟨S, ⟨-, hfill, hperm⟩, hext⟩
  have hrow := not_hasDuplicate_of_isPermutation (hperm (rowGroup 4 0) (by decide))
  have hcol := not_hasDuplicate_of_isPermutation (hperm (colGroup 4 3) (by decide))
  have e00 : cell S 0 0 = 1 := hext 0 (by decide) 0 (by decide) (by decide)
  have e01 : cell S 0 1 = 2 := hext 0 (by decide) 1 (by decide) (by decide)
  have e02 : cell S 0 2 = 3 := hext 0 (by decide) 2 (by decide) (by decide)
  have e13 : cell S 1 3 = 4 := hext 1 (by decide) 3 (by decide) (by decide)
  have hv := hfill 0 (by decide) 3 (by decide)
  have n1 : cell S 0 3 ≠ 1 := fun h =>
    hrow ⟨(0, 0), by decide, (0, 3), by decide, by decide, by simp [e00], by simp [e00, h]⟩
  have n2 : cell S 0 3 ≠ 2 := fun h =>
    hrow ⟨(0, 1), by decide, (0, 3), by decide, by decide, by simp [e01], by simp [e01, h]⟩
  have n3 : cell S 0 3 ≠ 3 := fun h =>
    hrow ⟨(0, 2), by decide, (0, 3), by decide, by decide, by simp [e02], by simp [e02, h]⟩
  have n4 : cell S 0 3 ≠ 4 := fun h =>
    hcol ⟨(1, 3), by decide, (0, 3), by decide, by decide, by simp [e13], by simp [e13, h]⟩
  omega

/-! ## The claims -/

/-- Claim C1 (round trip, completeness): for `N = s * s` and an `N × N` puzzle `P`
with values in `0 .. N` that has a completion (a grid with every cell in
`1 .. N`, every row, column and sub-grid a permutation of `1 .. N`, agreeing
with `P` on the filled cells of `P`), `solveSudoku` returns true as soon as the
fuel exceeds the number of blanks, and the grid it leaves has no blank cell,
passes `isValidPuzzle` and still agrees with `P` on the givens. -/
theorem solveSudoku_solves_solvable (N s : Nat) (P : Grid) (hN : N = s * s)
    (hg : IsGrid N P) (hr : InRange N P) (hsolv : Solvable N P) (fuel : Nat)
    (hfuel : blankCount P < fuel) :
    ∃ R, solveSudoku fuel P N = SolveResult.done true R ∧ IsGrid N R ∧ Complete N R ∧
      isValidPuzzle N R = some true ∧ Extends N P R := by
  obtain ⟨S, hS, hext⟩ := hsolv
  obtain ⟨R, h1, h2, h3, -, h5, -, h7⟩ :=
    solveSudoku_of_completion hN hg hr (completion_of_solution hS hext) hfuel
  exact ⟨R, h1, h2, h3, h7, h5⟩

theorem solveSudoku_solves_solvable_witness :
    4 = 2 * 2 ∧ IsGrid 4 example4 ∧ InRange 4 example4 ∧ Solvable 4 example4 ∧
      blankCount example4 < 11 ∧
      ∃ R, solveSudoku 11 example4 4 = SolveResult.done true R ∧ IsGrid 4 R ∧ Complete 4 R ∧
        isValidPuzzle 4 R = some true ∧ Extends 4 example4 R :=
  ⟨rfl, by decide, by decide, ⟨example4Solved, by decide, by decide⟩, by decide,
    solveSudoku_solves_solvable 4 2 example4 rfl (by decide) (by decide)
      ⟨example4Solved, by decide, by decide⟩ 11 (by decide)⟩

/-- Claim C2: for `N = s * s` and an `N × N` puzzle with values in `0 .. N`, if some
row, some column or some `s × s` sub-grid holds the same non-zero value in two
different cells, `isValidPuzzle` returns false. -/
theorem isValidPuzzle_rejects_duplicate (N s : Nat) (P : Grid) (hN : N = s * s)
    (hg : IsGrid N P) (hr : InRange N P)
    (hdup : (∃ r, r < N ∧ HasDuplicate P (rowGroup N r)) ∨
      (∃ c, c < N ∧ HasDuplicate P (colGroup N c)) ∨
      ∃ br, br < s ∧ ∃ bc, bc < s ∧ HasDuplicate P (blockGroup s br bc)) :
    isValidPuzzle N P = some false := by
  rw [isValidPuzzle_false_iff hN hg hr, structurallyValid_iff_by_kind hN]
  rintro ⟨h1, h2, h3⟩
  rcases hdup with ⟨r, hr, hd⟩ | ⟨c, hc, hd⟩ | ⟨br, hbr, bc, hbc, hd⟩
  · exact h1 r hr hd
  · exact h2 c hc hd
  · exact h3 br hbr bc hbc hd

theorem isValidPuzzle_rejects_duplicate_witness :
    4 = 2 * 2 ∧ IsGrid 4 rowDuplicate4 ∧ InRange 4 rowDuplicate4 ∧
      HasDuplicate rowDuplicate4 (rowGroup 4 0) ∧ isValidPuzzle 4 rowDuplicate4 = some false :=
  ⟨rfl, by decide, by decide, by decide,
    isValidPuzzle_rejects_duplicate 4 2 rowDuplicate4 rfl (by decide) (by decide)
      (Or.inl ⟨0, by decide, by decide⟩)⟩

/-- Claim C3: for `N = s * s` and an `N × N` puzzle with values in `0 .. N` in which
no row, no column and no `s × s` sub-grid holds the same non-zero value in two
different cells, `isValidPuzzle` returns true.  Blank cells never count as
duplicates (`HasDuplicate` only looks at non-zero values), so this covers
partially filled and blank grids as well as solved ones. -/
theorem isValidPuzzle_accepts_valid (N s : Nat) (P : Grid) (hN : N = s * s)
    (hg : IsGrid N P) (hr : InRange N P)
    (hrows : ∀ r, r < N → ¬ HasDuplicate P (rowGroup N r))
    (hcols : ∀ c, c < N → ¬ HasDuplicate P (colGroup N c))
    (hblocks : ∀ br, br < s → ∀ bc, bc < s → ¬ HasDuplicate P (blockGroup s br bc)) :
    isValidPuzzle N P = some true := by
  rw [isValidPuzzle_true_iff hN hg hr, structurallyValid_iff_by_kind hN]
  exact ⟨hrows, hcols, hblocks⟩

theorem isValidPuzzle_accepts_valid_witness :
    4 = 2 * 2 ∧ IsGrid 4 example4 ∧ InRange 4 example4 ∧
      (∀ r, r < 4 → ¬ HasDuplicate example4 (rowGroup 4 r)) ∧
      (∀ c, c < 4 → ¬ HasDuplicate example4 (colGroup 4 c)) ∧
      (∀ br, br < 2 → ∀ bc, bc < 2 → ¬ HasDuplicate example4 (blockGroup 2 br bc)) ∧
      isValidPuzzle 4 example4 = some true :=
  ⟨rfl, by decide, by decide, by decide, by decide, by decide,
    isValidPuzzle_accepts_valid 4 2 example4 rfl (by decide) (by decide) (by decide)
      (by decide) (by decide)⟩

/-- Claim C4 (failure restores input): whenever `solveSudoku` returns false, the grid
after the call is the grid before the call.  This holds for every grid and
every size, whatever the fuel. -/
theorem solveSudoku_failure_restores (N : Nat) (P R : Grid) (fuel : Nat)
    (h : solveSudoku fuel P N = SolveResult.done false R) : R = P :=
  solveSudoku_restores N fuel P R h

theorem solveSudoku_failure_restores_witness :
    solveSudoku 17 unsolvable4 4 = SolveResult.done false unsolvable4 ∧
      unsolvable4 = unsolvable4 :=
  ⟨by decide, solveSudoku_failure_restores 4 unsolvable4 unsolvable4 17 (by decide)⟩

/-- Claim C5 (unsatisfiable): for `N = s * s` and an `N × N` puzzle `P` with values in
`0 .. N` that passes `isValidPuzzle` but has no completion, `solveSudoku`
returns false (leaving `P` as it was) as soon as the fuel exceeds the number
of blanks. -/
theorem solveSudoku_unsolvable_false (N s : Nat) (P : Grid) (hN : N = s * s)
    (hg : IsGrid N P) (hr : InRange N P) (hvalid : isValidPuzzle N P = some true)
    (hno : ¬ Solvable N P) (fuel : Nat) (hfuel : blankCount P < fuel) :
    solveSudoku fuel P N = SolveResult.done false P := by
  obtain ⟨b, R, hres, htrue, hfalse⟩ := solveSudoku_spec hN fuel P hg hfuel
  cases b with
  | false =>
    rw [hres, (hfalse rfl).1]
  | true =>
    obtain ⟨h1, -, h3, h4, h5⟩ := htrue rfl
    have hv := h4 ((isValidPuzzle_true_iff hN hg hr).mp hvalid)
    exact absurd ⟨R, isSolution_of_valid hN h1 (h5 hr) hv, h3⟩ hno

theorem solveSudoku_unsolvable_false_witness :
    4 = 2 * 2 ∧ IsGrid 4 unsolvable4 ∧ InRange 4 unsolvable4 ∧
      isValidPuzzle 4 unsolvable4 = some true ∧ ¬ Solvable 4 unsolvable4 ∧
      blankCount unsolvable4 < 13 ∧
      solveSudoku 13 unsolvable4 4 = SolveResult.done false unsolvable4 :=
  ⟨rfl, by decide, by decide, by decide, unsolvable4_not_solvable, by decide,
    solveSudoku_unsolvable_false 4 2 unsolvable4 rfl (by decide) (by decide) (by decide)
      unsolvable4_not_solvable 13 (by decide)⟩

/-- Claim C6 (idempotent on a solved puzzle): on an `N × N` grid without blank cell
`solveSudoku` returns true and leaves the grid unchanged, for any non-zero
fuel.  The row, column and sub-grid constraints of the claim are not needed. -/
theorem solveSudoku_idempotent_on_solved (N : Nat) (g : Grid) (hg : IsGrid N g)
    (hc : Complete N g) (fuel : Nat) (hfuel : 0 < fuel) :
    solveSudoku fuel g N = SolveResult.done true g :=
  solveSudoku_complete hg hc hfuel

theorem solveSudoku_idempotent_on_solved_witness :
    IsGrid 4 example4Solved ∧ Complete 4 example4Solved ∧ 0 < 1 ∧
      solveSudoku 1 example4Solved 4 = SolveResult.done true example4Solved :=
  ⟨by decide, by decide, by decide,
    solveSudoku_idempotent_on_solved 4 example4Solved (by decide) (by decide) 1 (by decide)⟩

/-- Claim C7 (termination): for `N = s * s` and an `N × N` grid of arbitrary integers,
every fuel above the number of blank cells makes `solveSudoku` return a
boolean and a grid, and more fuel returns the same; and writing a non-zero
value into a blank cell, as each recursive call does, strictly decreases the
number of blank cells. -/
theorem solveSudoku_terminates (N s : Nat) (g : Grid) (hN : N = s * s) (hg : IsGrid N g) :
    (∀ fuel, blankCount g < fuel → ∃ b R, solveSudoku fuel g N = SolveResult.done b R ∧
      ∀ fuel1, fuel ≤ fuel1 → solveSudoku fuel1 g N = SolveResult.done b R) ∧
    ∀ r c v g1, readCell g r c = some 0 → v ≠ 0 → writeCell g r c v = some g1 →
      blankCount g1 < blankCount g := by
  constructor
  · intro fuel hfuel
    obtain ⟨b, R, hres⟩ := solveSudoku_done hN hg hfuel
    exact ⟨b, R, hres, fun fuel1 hle => solveSudoku_fuel_mono N hle hres⟩
  · intro r c v g1 h0 hv hw
    have := blankCount_writeCell h0 hv hw
    omega

theorem solveSudoku_terminates_witness :
    4 = 2 * 2 ∧ IsGrid 4 unsolvable4 ∧
      ((∀ fuel, blankCount unsolvable4 < fuel →
        ∃ b R, solveSudoku fuel unsolvable4 4 = SolveResult.done b R ∧
          ∀ fuel1, fuel ≤ fuel1 → solveSudoku fuel1 unsolvable4 4 = SolveResult.done b R) ∧
      ∀ r c v g1, readCell unsolvable4 r c = some 0 → v ≠ 0 →
        writeCell unsolvable4 r c v = some g1 → blankCount g1 < blankCount unsolvable4) :=
  ⟨rfl, by decide, solveSudoku_terminates 4 2 unsolvable4 rfl (by decide)⟩

/-- Claim C8, as stated, fails on its count of givens: the 4 × 4 example has six
given cells, not eight, so no result of the search can leave "the eight given
cells" unchanged. -/
theorem example4_not_eight_givens :
    ¬ ∃ R, solveSudoku 11 example4 4 = SolveResult.done true R ∧
      (∀ G, G ∈ groups 4 → IsPermutation 4 R G) ∧
      givenCount example4 = 8 ∧ Extends 4 example4 R := by
  rintro ⟨R, -, -, h, -⟩
  exact absurd h (by decide)

/-- Claim C8, amended: on the 4 × 4 example `solveSudoku` returns true and in the
resulting grid every row, column and 2 × 2 block is a permutation of
`1, 2, 3, 4`, with the six given cells unchanged. -/
theorem solveSudoku_example4 :
    ∃ R, solveSudoku 11 example4 4 = SolveResult.done true R ∧
      (∀ G, G ∈ groups 4 → IsPermutation 4 R G) ∧
      givenCount example4 = 6 ∧ Extends 4 example4 R :=
  ⟨example4Solved, by decide, by decide, by decide, by decide⟩

/-- Claim C9: on the blank 9 × 9 grid `solveSudoku` returns true (for every fuel above
the 81 blanks), and the resulting grid has every cell in `1 .. 9`, passes
`isValidPuzzle`, and has every row, column and 3 × 3 block a permutation of
`1 .. 9`. -/
theorem solveSudoku_blank9 :
    ∀ fuel, 81 < fuel → ∃ R, solveSudoku fuel blank9 9 = SolveResult.done true R ∧
      Filled 9 R ∧ isValidPuzzle 9 R = some true ∧
      ∀ G, G ∈ groups 9 → IsPermutation 9 R G := by
  intro fuel hfuel
  have hN : 9 = 3 * 3 := rfl
  have hsol : IsSolution 9 blank9Solved := by decide
  have hext : Extends 9 blank9 blank9Solved := by decide
  have hblank : blankCount blank9 = 81 := by decide
  have hlt : blankCount blank9 < fuel := by omega
  obtain ⟨R, h1, h2, -, h4, -, h6, h7⟩ :=
    solveSudoku_of_completion hN (by decide) (by decide)
      (completion_of_solution hsol hext) hlt
  exact ⟨R, h1, h4, h7, (isSolution_of_valid hN h2 h4 h6).2.2⟩

theorem solveSudoku_blank9_witness :
    81 < 82 ∧ ∃ R, solveSudoku 82 blank9 9 = SolveResult.done true R ∧
      Filled 9 R ∧ isValidPuzzle 9 R = some true ∧
      ∀ G, G ∈ groups 9 → IsPermutation 9 R G :=
  ⟨by decide, solveSudoku_blank9 82 (by decide)⟩

/-- Claim C10 (index safety): for `N = s * s ≥ 1` and an `N × N` grid with values in
`0 .. N`, the square root used as divisor and stride is non-zero, and
`isValidPuzzle`, `findUnassignedCell`, `isValid` (at every cell of the grid)
and `solveSudoku` all return a value: the fault branch, which stands for an
out-of-bounds access or a zero divisor or stride, is not reached. -/
theorem index_safety (N s : Nat) (g : Grid) (hN : N = s * s) (hpos : 1 ≤ N)
    (hg : IsGrid N g) (hr : InRange N g) :
    intSqrt N ≠ 0 ∧ (∃ b, isValidPuzzle N g = some b) ∧
      (∃ found, findUnassignedCell g N = some found) ∧
      (∀ r c num, r < N → c < N → ∃ b, isValid g r c num N = some b) ∧
      ∀ fuel, blankCount g < fuel → ∃ b R, solveSudoku fuel g N = SolveResult.done b R := by
  refine ⟨?_, ?_, ?_, ?_, ?_⟩
  · rw [hN, intSqrt_sq]
    rintro rfl
    omega
  · obtain ⟨b, hb, -⟩ := isValidPuzzle_spec hN hg hr
    exact ⟨b, hb⟩
  · rcases findUnassignedCell_spec hg with ⟨hf, -⟩ | ⟨r, c, -, -, hf, -⟩
    · exact ⟨_, hf⟩
    · exact ⟨_, hf⟩
  · intro r c num hr hc
    obtain ⟨b, hb, -⟩ := isValid_spec hN hg hr hc num
    exact ⟨b, hb⟩
  · intro fuel hfuel
    exact solveSudoku_done hN hg hfuel

theorem index_safety_witness :
    4 = 2 * 2 ∧ 1 ≤ 4 ∧ IsGrid 4 example4 ∧ InRange 4 example4 ∧
      (intSqrt 4 ≠ 0 ∧ (∃ b, isValidPuzzle 4 example4 = some b) ∧
        (∃ found, findUnassignedCell example4 4 = some found) ∧
        (∀ r c num, r < 4 → c < 4 → ∃ b, isValid example4 r c num 4 = some b) ∧
        ∀ fuel, blankCount example4 < fuel →
          ∃ b R, solveSudoku fuel example4 4 = SolveResult.done b R) :=
  ⟨rfl, by decide, by decide, by decide,
    index_safety 4 2 example4 rfl (by decide) (by decide) (by decide)⟩

/-! ## The frame of the search -/

theorem readCell_writeCell {g g1 : Grid} {r c : Nat} {v : Int}
    (hw : writeCell g r c v = some g1) (i j : Nat) :
    readCell g1 i j = if i = r ∧ j = c then some v else readCell g i j := by
  unfold writeCell at hw
  cases hgr : g[r]? with
  | none => rw [hgr] at hw; simp at hw
  | some cells =>
    rw [hgr] at hw
    simp only at hw
    by_cases hc : c < cells.length
    · rw [if_pos hc] at hw
      injection hw with hw
      subst hw
      have hr : r < g.length := by
        rcases List.getElem?_eq_some_iff.mp hgr with ⟨h, _⟩
        exact h
      unfold readCell
      rw [List.getElem?_set]
      by_cases hi : r = i
      · subst hi
        simp only [hr, if_true, true_and, hgr]
        rw [List.getElem?_set]
        by_cases hj : c = j
        · subst hj
          simp [hc]
        · have hj' : ¬ j = c := fun h => hj h.symm
          simp [hj, hj']
      · have hi' : ¬ i = r := fun h => hi h.symm
        simp [hi, hi']
    · rw [if_neg hc] at hw
      simp at hw

theorem cell_writeCell {g g1 : Grid} {r c : Nat} {v : Int}
    (hw : writeCell g r c v = some g1) (i j : Nat) :
    cell g1 i j = if i = r ∧ j = c then v else cell g i j := by
  unfold cell
  rw [readCell_writeCell hw]
  by_cases h : i = r ∧ j = c
  · simp [h]
  · simp [h]

/-- The candidate loop leaves every filled cell of the grid it starts from as it is. -/
theorem solveSudokuLoop_frame (recurse : Grid → SolveResult)
    (hrestore : ∀ g1 R1, recurse g1 = SolveResult.done false R1 → R1 = g1)
    (hframe : ∀ g1 b1 R1, recurse g1 = SolveResult.done b1 R1 →
      ∀ i j, cell g1 i j ≠ 0 → cell R1 i j = cell g1 i j)
    (size r c : Nat) :
    ∀ (nums : List Nat) (g : Grid) (b : Bool) (R : Grid), readCell g r c = some 0 →
      solveSudokuLoop recurse size r c nums g = SolveResult.done b R →
      ∀ i j, cell g i j ≠ 0 → cell R i j = cell g i j := by
  intro nums
  induction nums with
  | nil =>
    intro g b R _ h i j _
    unfold solveSudokuLoop at h
    injection h with _ h
    rw [h]
  | cons n rest ih =>
    intro g b R hread h
    unfold solveSudokuLoop at h
    cases hv : isValid g r c (n : Int) size with
    | none => rw [hv] at h; simp at h
    | some bv =>
      rw [hv] at h
      cases bv with
      | false => exact ih g b R hread h
      | true =>
        simp only at h
        cases hw : writeCell g r c (n : Int) with
        | none => rw [hw] at h; simp at h
        | some g1 =>
          rw [hw] at h
          simp only at h
          cases hres : recurse g1 with
          | fault => rw [hres] at h; simp at h
          | outOfFuel => rw [hres] at h; simp at h
          | done b1 R1 =>
            rw [hres] at h
            cases b1 with
            | true =>
              simp only at h
              injection h with _ h
              subst h
              intro i j hij
              have hne : ¬ (i = r ∧ j = c) := by
                rintro ⟨rfl, rfl⟩
                apply hij
                simp [cell, hread]
              have e : cell g1 i j = cell g i j := by rw [cell_writeCell hw, if_neg hne]
              rw [← e]
              exact hframe g1 true R1 hres i j (by rw [e]; exact hij)
            | false =>
              simp only at h
              have := hrestore g1 R1 hres
              subst this
              rw [writeCell_undo hread hw] at h
              exact ih g b R hread h

/-- Whatever `solveSudoku` returns, the filled cells of its input keep their value. -/
theorem solveSudoku_frame (size : Nat) :
    ∀ (fuel : Nat) (g : Grid) (b : Bool) (R : Grid),
      solveSudoku fuel g size = SolveResult.done b R →
      ∀ i j, cell g i j ≠ 0 → cell R i j = cell g i j := by
  intro fuel
  induction fuel with
  | zero =>
    intro g b R h
    simp [solveSudoku] at h
  | succ fuel ih =>
    intro g b R h
    unfold solveSudoku at h
    cases hf : findUnassignedCell g size with
    | none => rw [hf] at h; simp at h
    | some o =>
      rw [hf] at h
      cases o with
      | none =>
        simp only at h
        injection h with _ h
        subst h
        intro i j _
        rfl
      | some p =>
        obtain ⟨r, c⟩ := p
        simp only at h
        exact solveSudokuLoop_frame _ (fun g1 R1 h1 => solveSudoku_restores size fuel g1 R1 h1)
          (fun g1 b1 R1 h1 => ih g1 b1 R1 h1) size r c _ g b R (findUnassignedCell_blank hf) h

/-! ## The first blank -/

theorem findUnassignedCellCols_first {N : Nat} {g : Grid} (hg : IsGrid N g) {i : Nat}
    (hi : i < N) :
    ∀ (l : List Nat), (∀ k, k ∈ l → k < N) → l.Pairwise (fun a b => a < b) → ∀ j,
      findUnassignedCellCols g i l = some (some j) →
      ∀ k, k ∈ l → k < j → cell g i k ≠ 0 := by
  intro l
  induction l with
  | nil =>
    intro _ _ j h
    simp [findUnassignedCellCols] at h
  | cons k0 rest ih =>
    intro hl hsorted j h
    have hk0 : k0 < N := hl k0 (List.mem_cons_self _ _)
    have hrest : ∀ k, k ∈ rest → k < N := fun k hk => hl k (List.mem_cons_of_mem _ hk)
    obtain ⟨hlt, hsorted1⟩ := List.pairwise_cons.mp hsorted
    unfold findUnassignedCellCols at h
    rw [readCell_isGrid hg hi hk0] at h
    simp only at h
    by_cases h0 : cell g i k0 = 0
    · rw [if_pos h0] at h
      injection h with h
      injection h with h
      subst h
      intro k hk hkj
      rcases List.mem_cons.mp hk with rfl | hk
      · omega
      · have := hlt k hk
        omega
    · rw [if_neg h0] at h
      intro k hk hkj
      rcases List.mem_cons.mp hk with rfl | hk
      · exact h0
      · exact ih hrest hsorted1 j h k hk hkj

theorem findUnassignedCellCols_mem {g : Grid} {i : Nat} :
    ∀ (l : List Nat) (j : Nat), findUnassignedCellCols g i l = some (some j) → j ∈ l := by
  intro l
  induction l with
  | nil =>
    intro j h
    simp [findUnassignedCellCols] at h
  | cons k rest ih =>
    intro j h
    unfold findUnassignedCellCols at h
    cases hread : readCell g i k with
    | none => rw [hread] at h; simp at h
    | some v =>
      rw [hread] at h
      simp only at h
      by_cases hv : v = 0
      · rw [if_pos hv] at h
        injection h with h
        injection h with h
        subst h
        exact List.mem_cons_self _ _
      · rw [if_neg hv] at h
        exact List.mem_cons_of_mem _ (ih j h)

theorem findUnassignedCellRows_first {N : Nat} {g : Grid} (hg : IsGrid N g) :
    ∀ (l : List Nat), (∀ i, i ∈ l → i < N) → l.Pairwise (fun a b => a < b) → ∀ r c,
      findUnassignedCellRows g N l = some (some (r, c)) →
      r ∈ l ∧ c < N ∧
        ∀ i j, i ∈ l → j < N → Before i j r c → cell g i j ≠ 0 := by
  intro l
  induction l with
  | nil =>
    intro _ _ r c h
    simp [findUnassignedCellRows] at h
  | cons i0 rest ih =>
    intro hl hsorted r c h
    have hi0 : i0 < N := hl i0 (List.mem_cons_self _ _)
    have hrest : ∀ k, k ∈ rest → k < N := fun k hk => hl k (List.mem_cons_of_mem _ hk)
    obtain ⟨hlt, hsorted1⟩ := List.pairwise_cons.mp hsorted
    unfold findUnassignedCellRows at h
    rcases findUnassignedCellCols_spec hg hi0 (List.range N) (fun j hj => List.mem_range.mp hj)
      with ⟨h1, h2⟩ | ⟨j0, hj0, h1, -⟩
    · rw [h1] at h
      simp only at h
      obtain ⟨hr, hc, hfirst⟩ := ih hrest hsorted1 r c h
      refine ⟨List.mem_cons_of_mem _ hr, hc, ?_⟩
      intro i j hi hj hbefore
      rcases List.mem_cons.mp hi with rfl | hi
      · exact h2 j (List.mem_range.mpr hj)
      · exact hfirst i j hi hj hbefore
    · rw [h1] at h
      simp only at h
      injection h with h
      injection h with h
      injection h with e1 e2
      subst e1 e2
      refine ⟨List.mem_cons_self _ _, List.mem_range.mp hj0, ?_⟩
      intro i j hi hj hbefore
      rcases hbefore with hlt' | ⟨rfl, hjc⟩
      · rcases List.mem_cons.mp hi with rfl | hi
        · omega
        · have := hlt i hi
          omega
      · exact findUnassignedCellCols_first hg hi0 (List.range N)
          (fun k hk => List.mem_range.mp hk) (List.pairwise_lt_range N) j0 h1 j
          (List.mem_range.mpr hj) hjc

/-- The cell reported by `findUnassignedCell` is the first blank in row-major order. -/
theorem findUnassignedCell_first {N : Nat} {g : Grid} (hg : IsGrid N g) {r c : Nat}
    (h : findUnassignedCell g N = some (some (r, c))) :
    r < N ∧ c < N ∧ cell g r c = 0 ∧
      ∀ i j, i < N → j < N → Before i j r c → cell g i j ≠ 0 := by
  obtain ⟨hr, hc, hfirst⟩ := findUnassignedCellRows_first hg (List.range N)
    (fun i hi => List.mem_range.mp hi) (List.pairwise_lt_range N) r c h
  refine ⟨List.mem_range.mp hr, hc, ?_, ?_⟩
  · simp [cell, findUnassignedCell_blank h]
  · intro i j hi hj hb
    exact hfirst i j (List.mem_range.mpr hi) hj hb

/-! ## The solution that is found -/

theorem solveSudokuLoop_lexmin {N s : Nat} (hN : N = s * s) (recurse : Grid → SolveResult)
    (k : Nat)
    (hrec : ∀ g1, IsGrid N g1 → blankCount g1 < k → SolveSpec N g1 (recurse g1))
    (hlex : ∀ g1 R1, IsGrid N g1 → blankCount g1 < k →
      recurse g1 = SolveResult.done true R1 → ∀ S, Completion N g1 S → LexLe N R1 S)
    {g : Grid} (hg : IsGrid N g) (hk : blankCount g ≤ k) {r c : Nat} (hr : r < N) (hc : c < N)
    (h0 : cell g r c = 0)
    (hfirst : ∀ i j, i < N → j < N → Before i j r c → cell g i j ≠ 0) :
    ∀ (nums : List Nat), (∀ n, n ∈ nums → 1 ≤ n ∧ n ≤ N) →
      nums.Pairwise (fun a b => a < b) → ∀ R,
      solveSudokuLoop recurse N r c nums g = SolveResult.done true R →
      ∀ S, Completion N g S → (∃ m, m ∈ nums ∧ cell S r c = (m : Int)) → LexLe N R S := by
  intro nums
  induction nums with
  | nil =>
    intro _ _ R _ S _ hm
    obtain ⟨m, hm, -⟩ := hm
    simp at hm
  | cons n rest ih =>
    intro hnums hsorted R h S hS hm
    have hn : 1 ≤ n ∧ n ≤ N := hnums n (List.mem_cons_self _ _)
    have hrest : ∀ m, m ∈ rest → 1 ≤ m ∧ m ≤ N := fun m hm =>
      hnums m (List.mem_cons_of_mem _ hm)
    obtain ⟨hlt, hsorted1⟩ := List.pairwise_cons.mp hsorted
    have hn0 : (n : Int) ≠ 0 := by omega
    have hread : readCell g r c = some 0 := by rw [readCell_isGrid hg hr hc, h0]
    obtain ⟨m, hmem, hSm⟩ := hm
    unfold solveSudokuLoop at h
    obtain ⟨bv, hbv, -⟩ := isValid_spec hN hg hr hc (n : Int)
    rw [hbv] at h
    cases bv with
    | false =>
      simp only at h
      rcases List.mem_cons.mp hmem with rfl | hmem
      · exact absurd hSm (completion_ne_of_isValid_false hN hg hr hc h0 hn0 hbv hS)
      · exact ih hrest hsorted1 R h S hS ⟨m, hmem, hSm⟩
    | true =>
      simp only at h
      obtain ⟨g1, hw, hg1, hcell⟩ := writeCell_isGrid hg hr hc (n : Int)
      rw [hw] at h
      simp only at h
      have hcount := blankCount_writeCell hread hn0 hw
      have hlt1 : blankCount g1 < k := by omega
      obtain ⟨b1, R1, hres, h1true, h1false⟩ := hrec g1 hg1 hlt1
      rw [hres] at h
      cases b1 with
      | true =>
        simp only at h
        injection h with _ h
        subst h
        rcases List.mem_cons.mp hmem with rfl | hmem
        · exact hlex g1 R1 hg1 hlt1 hres S (completion_of_place hr hc hcell hS hSm)
        · have hnm := hlt m hmem
          obtain ⟨-, -, hext1, -, -⟩ := h1true rfl
          right
          refine ⟨r, c, hr, hc, ?_, ?_⟩
          · have e1 : cell g1 r c = (n : Int) := by rw [hcell, if_pos ⟨rfl, rfl⟩]
            rw [hext1 r hr c hc (by rw [e1]; exact hn0), e1, hSm]
            omega
          · intro i j hi hj hb
            have hgij := hfirst i j hi hj hb
            have hne : ¬ (i = r ∧ j = c) := by
              rintro ⟨rfl, rfl⟩
              exact hgij h0
            have e1 : cell g1 i j = cell g i j := by rw [hcell, if_neg hne]
            rw [hext1 i hi j hj (by rw [e1]; exact hgij), e1, hS.2.2 i hi j hj hgij]
      | false =>
        simp only at h
        obtain ⟨hR1, hnone⟩ := h1false rfl
        subst hR1
        rw [writeCell_undo hread hw] at h
        simp only at h
        rcases List.mem_cons.mp hmem with rfl | hmem
        · exact absurd (completion_of_place hr hc hcell hS hSm) (hnone S)
        · exact ih hrest hsorted1 R h S hS ⟨m, hmem, hSm⟩

/-- The grid that a successful search returns is lexicographically below every
completion of the grid it started from. -/
theorem solveSudoku_lexmin {N s : Nat} (hN : N = s * s) :
    ∀ (fuel : Nat) (g R : Grid), IsGrid N g → blankCount g < fuel →
      solveSudoku fuel g N = SolveResult.done true R →
      ∀ S, Completion N g S → LexLe N R S := by
  intro fuel
  induction fuel with
  | zero =>
    intro g R _ h
    omega
  | succ fuel ih =>
    intro g R hg hfuel h S hS
    unfold solveSudoku at h
    rcases findUnassignedCell_spec hg with ⟨hf, hcomplete⟩ | ⟨r, c, hr, hc, hf, h0⟩
    · rw [hf] at h
      simp only at h
      injection h with _ h
      subst h
      left
      intro i hi j hj
      exact (hS.2.2 i hi j hj (hcomplete i hi j hj)).symm
    · rw [hf] at h
      simp only at h
      obtain ⟨-, -, -, hfirst⟩ := findUnassignedCell_first hg hf
      have hfill := hS.1 r hr c hc
      apply solveSudokuLoop_lexmin hN (fun g1 => solveSudoku fuel g1 N) fuel
        (fun g1 hg1 hlt => solveSudoku_spec hN fuel g1 hg1 hlt)
        (fun g1 R1 hg1 hlt hres => ih g1 R1 hg1 hlt hres) hg (by omega) hr hc h0 hfirst
        (List.range' 1 N) _ (List.pairwise_lt_range' 1 N) R h S hS
      · refine ⟨(cell S r c).toNat, List.mem_range'_1.mpr (by omega), ?_⟩
        omega
      · intro n hn
        have := List.mem_range'_1.mp hn
        omega

/-! ## Reachable states of the window -/

theorem on_solveButton_clicked_gridSize (fuel : Nat) (w : MainWindow) :
    (on_solveButton_clicked fuel w).window.gridSize = w.gridSize := by
  unfold on_solveButton_clicked
  split
  · rfl
  · rfl
  · split
    · rfl
    · rfl
    · split
      · rfl
      · rfl
      · rfl
      · split
        · rfl
        · rfl

theorem on_solveButton_clicked_calls (fuel : Nat) (w : MainWindow) :
    ∀ call, call ∈ (on_solveButton_clicked fuel w).calls → call.size = w.gridSize := by
  intro call
  unfold on_solveButton_clicked
  split
  · simp
  · simp
  · split
    · intro h
      simp only [List.mem_singleton] at h
      subst h
      rfl
    · intro h
      simp only [List.mem_singleton] at h
      subst h
      rfl
    · have key : ∀ p q : Grid,
          call ∈ [CoreCall.validate w.gridSize p, CoreCall.solve q w.gridSize] →
          call.size = w.gridSize := by
        intro p q h
        simp only [List.mem_cons, List.mem_singleton, List.not_mem_nil, or_false] at h
        rcases h with h | h
        · subst h; rfl
        · subst h; rfl
      split
      · exact key _ _
      · exact key _ _
      · exact key _ _
      · split
        · exact key _ _
        · exact key _ _

/-- In every reachable state of the window `gridSize` is 4 or 9. -/
theorem reachable_gridSize {w : MainWindow} (hw : Reachable w) :
    w.gridSize = 4 ∨ w.gridSize = 9 := by
  induction hw with
  | constructed => left; rfl
  | sizeChanged w index _ _ =>
    unfold on_sizeComboBox_currentIndexChanged
    by_cases h : index = 0
    · rw [if_pos h]; left; rfl
    · rw [if_neg h]; right; rfl
  | solveClicked w fuel _ ih =>
    rw [on_solveButton_clicked_gridSize]
    exact ih
  | clearClicked w w1 _ h ih =>
    unfold on_clearButton_clicked at h
    split at h
    · simp at h
    · injection h with h
      subst h
      exact ih
  | edited w w1 i j t _ h ih =>
    unfold editCell at h
    split at h
    · simp at h
    · injection h with h
      subst h
      exact ih

/-! ## The claims on the window, the frame and the helper functions -/

/-- The handler itself has no guard on the size: in a window of size 5, which
no sequence of events produces, a click would call `isValidPuzzle` with 5,
and the sub-grid scan would then leave the matrix. -/
theorem on_solveButton_clicked_unguarded :
    (on_solveButton_clicked 0 (createGrid 5)).calls.map CoreCall.size = [5] ∧
      (on_solveButton_clicked 0 (createGrid 5)).outcome = ClickOutcome.fault :=
  ⟨by decide, by decide⟩

/-- Claim C11: in every state of the window that can be reached from the constructor,
`gridSize` is 4 or 9 (the only two sizes `createGrid` is ever called with), and
every call that `on_solveButton_clicked` makes to `isValidPuzzle` or
`solveSudoku` is made with that size, a perfect square.  The code has no
branch that rejects a size: a size that is not a perfect square cannot arise. -/
theorem solveButton_sizes_are_squares (w : MainWindow) (hw : Reachable w) (fuel : Nat) :
    (w.gridSize = 4 ∨ w.gridSize = 9) ∧
      ∀ call, call ∈ (on_solveButton_clicked fuel w).calls →
        call.size = w.gridSize ∧ ∃ s, call.size = s * s := by
  have hsize := reachable_gridSize hw
  refine ⟨hsize, ?_⟩
  intro call hcall
  have hc := on_solveButton_clicked_calls fuel w call hcall
  refine ⟨hc, ?_⟩
  rw [hc]
  rcases hsize with h | h
  · exact ⟨2, by rw [h]⟩
  · exact ⟨3, by rw [h]⟩

theorem solveButton_sizes_are_squares_witness :
    Reachable (on_sizeComboBox_currentIndexChanged mainWindow 1) ∧
      ((on_sizeComboBox_currentIndexChanged mainWindow 1).gridSize = 4 ∨
        (on_sizeComboBox_currentIndexChanged mainWindow 1).gridSize = 9) ∧
      ∀ call,
        call ∈ (on_solveButton_clicked 82 (on_sizeComboBox_currentIndexChanged mainWindow 1)).calls →
        call.size = (on_sizeComboBox_currentIndexChanged mainWindow 1).gridSize ∧
          ∃ s, call.size = s * s :=
  ⟨Reachable.sizeChanged mainWindow 1 Reachable.constructed,
    solveButton_sizes_are_squares (on_sizeComboBox_currentIndexChanged mainWindow 1)
      (Reachable.sizeChanged mainWindow 1 Reachable.constructed) 82⟩

/-- Claim C12 (givens are never overwritten): whatever `solveSudoku` returns, every
cell that was non-zero in the input holds the same value afterwards.  This
holds for every grid, size and fuel. -/
theorem solveSudoku_keeps_givens (N : Nat) (P R : Grid) (fuel : Nat) (b : Bool)
    (h : solveSudoku fuel P N = SolveResult.done b R) :
    ∀ i j, cell P i j ≠ 0 → cell R i j = cell P i j :=
  solveSudoku_frame N fuel P b R h

theorem solveSudoku_keeps_givens_witness :
    solveSudoku 11 example4 4 = SolveResult.done true example4Solved ∧
      ∀ i j, cell example4 i j ≠ 0 → cell example4Solved i j = cell example4 i j :=
  ⟨by decide, solveSudoku_keeps_givens 4 example4 example4Solved 11 true (by decide)⟩

/-- Claim C13 (which solution is chosen): for `N = s * s` and a solvable `N × N` puzzle
`P` with values in `0 .. N`, the grid that `solveSudoku` produces is a
solution extending `P`, and it is lexicographically below (cells read in
row-major order) every solution that extends `P`.  Structural validity of
`P` follows from its being solvable. -/
theorem solveSudoku_lexicographically_first (N s : Nat) (P : Grid) (hN : N = s * s)
    (hg : IsGrid N P) (hr : InRange N P) (hsolv : Solvable N P) (fuel : Nat)
    (hfuel : blankCount P < fuel) :
    ∃ R, solveSudoku fuel P N = SolveResult.done true R ∧ IsSolution N R ∧ Extends N P R ∧
      ∀ S, IsSolution N S → Extends N P S → LexLe N R S := by
  obtain ⟨S0, hS0, hext0⟩ := hsolv
  obtain ⟨R, h1, h2, -, h4, h5, h6, -⟩ :=
    solveSudoku_of_completion hN hg hr (completion_of_solution hS0 hext0) hfuel
  refine ⟨R, h1, isSolution_of_valid hN h2 h4 h6, h5, ?_⟩
  intro S hS hext
  exact solveSudoku_lexmin hN fuel P R hg hfuel h1 S (completion_of_solution hS hext)

theorem solveSudoku_lexicographically_first_witness :
    4 = 2 * 2 ∧ IsGrid 4 example4 ∧ InRange 4 example4 ∧ Solvable 4 example4 ∧
      blankCount example4 < 11 ∧
      ∃ R, solveSudoku 11 example4 4 = SolveResult.done true R ∧ IsSolution 4 R ∧
        Extends 4 example4 R ∧ ∀ S, IsSolution 4 S → Extends 4 example4 S → LexLe 4 R S :=
  ⟨rfl, by decide, by decide, ⟨example4Solved, by decide, by decide⟩, by decide,
    solveSudoku_lexicographically_first 4 2 example4 rfl (by decide) (by decide)
      ⟨example4Solved, by decide, by decide⟩ 11 (by decide)⟩

/-- Claim C14 (placement preserves structural validity): for `N = s * s`, an `N × N`
grid with values in `0 .. N` that passes `isValidPuzzle`, a cell `(r, c)` of
the grid and `num` in `1 .. N`, if `isValid` accepts `num` for the cell then
the grid with the cell set to `num` passes `isValidPuzzle` too.  That the
cell is blank is not needed. -/
theorem isValid_placement_stays_valid (N s : Nat) (g : Grid) (hN : N = s * s)
    (hg : IsGrid N g) (hr : InRange N g) (hvalid : isValidPuzzle N g = some true)
    (r c : Nat) (hrow : r < N) (hcol : c < N) (num : Int) (hnum : 1 ≤ num ∧ num ≤ (N : Int))
    (hv : isValid g r c num N = some true) :
    ∃ g1, writeCell g r c num = some g1 ∧
      (∀ a b, cell g1 a b = if a = r ∧ b = c then num else cell g a b) ∧
      isValidPuzzle N g1 = some true := by
  obtain ⟨g1, hw, hg1, hcell⟩ := writeCell_isGrid hg hrow hcol num
  refine ⟨g1, hw, hcell, ?_⟩
  have hr1 : InRange N g1 := by
    intro i hi j hj
    rw [hcell]
    by_cases hij : i = r ∧ j = c
    · rw [if_pos hij]
      omega
    · rw [if_neg hij]
      exact hr i hi j hj
  rw [isValidPuzzle_true_iff hN hg1 hr1]
  exact structurallyValid_place hN hg hrow hcol hv hcell
    ((isValidPuzzle_true_iff hN hg hr).mp hvalid)

theorem isValid_placement_stays_valid_witness :
    4 = 2 * 2 ∧ IsGrid 4 example4 ∧ InRange 4 example4 ∧
      isValidPuzzle 4 example4 = some true ∧ 0 < 4 ∧ 1 < 4 ∧ (1 ≤ (2 : Int) ∧ (2 : Int) ≤ (4 : Nat)) ∧
      isValid example4 0 1 2 4 = some true ∧
      ∃ g1, writeCell example4 0 1 2 = some g1 ∧
        (∀ a b, cell g1 a b = if a = 0 ∧ b = 1 then 2 else cell example4 a b) ∧
        isValidPuzzle 4 g1 = some true :=
  ⟨rfl, by decide, by decide, by decide, by decide, by decide, by decide, by decide,
    isValid_placement_stays_valid 4 2 example4 rfl (by decide) (by decide) (by decide) 0 1
      (by decide) (by decide) 2 (by decide) (by decide)⟩

/-- Claim C15: `solveSudoku` does not check the pre-filled cells against each other.
The 4 × 4 grid `invalidFull4` has no blank cell and two `1`s in its first row,
so it fails `isValidPuzzle`; `solveSudoku` returns true on it and the
resulting grid (the same grid) still fails `isValidPuzzle`. -/
theorem solveSudoku_accepts_invalid_full_grid :
    IsGrid 4 invalidFull4 ∧ InRange 4 invalidFull4 ∧ Complete 4 invalidFull4 ∧
      HasDuplicate invalidFull4 (rowGroup 4 0) ∧
      isValidPuzzle 4 invalidFull4 = some false ∧
      ∃ R, solveSudoku 1 invalidFull4 4 = SolveResult.done true R ∧
        isValidPuzzle 4 R = some false :=
  ⟨by decide, by decide, by decide, by decide, by decide, invalidFull4, by decide, by decide⟩

/-- Claim C16 (what `isValid` decides): for `N = s * s`, an `N × N` grid, a cell
`(row, col)` of the grid and any `num`, `isValid` returns a boolean, and it
is true exactly when `num` is in no cell of row `row`, in no cell of column
`col` and in no cell of the `s × s` block with origin
`(row / s * s, col / s * s)`. -/
theorem isValid_characterisation (N s : Nat) (g : Grid) (hN : N = s * s) (hg : IsGrid N g)
    (row col : Nat) (hrow : row < N) (hcol : col < N) (num : Int) :
    ∃ b, isValid g row col num N = some b ∧
      (b = true ↔ (∀ j, j < N → cell g row j ≠ num) ∧ (∀ i, i < N → cell g i col ≠ num) ∧
        ∀ i, i < s → ∀ j, j < s → cell g (row / s * s + i) (col / s * s + j) ≠ num) := by
  obtain ⟨b, hb, hiff⟩ := isValid_spec hN hg hrow hcol num
  refine ⟨b, hb, ?_⟩
  rw [hiff]
  constructor
  · rintro ⟨h1, h2, h3⟩
    refine ⟨fun j hj => h1 (row, j) (mem_rowGroup.mpr ⟨rfl, hj⟩),
      fun i hi => h2 (i, col) (mem_colGroup.mpr ⟨rfl, hi⟩), ?_⟩
    intro i hi j hj
    exact h3 (row / s * s + i, col / s * s + j) (mem_blockGroup.mpr ⟨i, hi, j, hj, rfl⟩)
  · rintro ⟨h1, h2, h3⟩
    refine ⟨?_, ?_, ?_⟩
    · intro p hp
      obtain ⟨e, hlt⟩ := mem_rowGroup.mp hp
      rw [e]
      exact h1 p.2 hlt
    · intro p hp
      obtain ⟨e, hlt⟩ := mem_colGroup.mp hp
      rw [e]
      exact h2 p.1 hlt
    · intro p hp
      obtain ⟨i, hi, j, hj, rfl⟩ := mem_blockGroup.mp hp
      exact h3 i hi j hj

theorem isValid_characterisation_witness :
    4 = 2 * 2 ∧ IsGrid 4 example4 ∧ 0 < 4 ∧ 1 < 4 ∧
      ∃ b, isValid example4 0 1 2 4 = some b ∧
        (b = true ↔ (∀ j, j < 4 → cell example4 0 j ≠ 2) ∧
          (∀ i, i < 4 → cell example4 i 1 ≠ 2) ∧
          ∀ i, i < 2 → ∀ j, j < 2 → cell example4 (0 / 2 * 2 + i) (1 / 2 * 2 + j) ≠ 2) :=
  ⟨rfl, by decide, by decide, by decide,
    isValid_characterisation 4 2 example4 rfl (by decide) 0 1 (by decide) (by decide) 2⟩

/-- Claim C17 (what `findUnassignedCell` finds): on an `N × N` grid
`findUnassignedCell` returns false exactly when no cell is 0; otherwise it
returns true, and whenever it returns true the reported cell is in the grid,
holds 0, and every cell before it in row-major order is non-zero. -/
theorem findUnassignedCell_characterisation (N : Nat) (g : Grid) (hg : IsGrid N g) :
    (findUnassignedCell g N = some none ↔ Complete N g) ∧
      (findUnassignedCell g N = some none ∨
        ∃ r c, findUnassignedCell g N = some (some (r, c))) ∧
      ∀ r c, findUnassignedCell g N = some (some (r, c)) →
        r < N ∧ c < N ∧ cell g r c = 0 ∧
          ∀ i j, i < N → j < N → Before i j r c → cell g i j ≠ 0 := by
  refine ⟨?_, ?_, ?_⟩
  · constructor
    · intro h
      rcases findUnassignedCell_spec hg with ⟨-, hc⟩ | ⟨r, c, -, -, hf, -⟩
      · exact hc
      · rw [hf] at h
        simp at h
    · intro hc
      rcases findUnassignedCell_spec hg with ⟨hf, -⟩ | ⟨r, c, hr, hcc, -, h0⟩
      · exact hf
      · exact absurd h0 (hc r hr c hcc)
  · rcases findUnassignedCell_spec hg with ⟨hf, -⟩ | ⟨r, c, -, -, hf, -⟩
    · exact Or.inl hf
    · exact Or.inr ⟨r, c, hf⟩
  · intro r c h
    exact findUnassignedCell_first hg h

theorem findUnassignedCell_characterisation_witness :
    IsGrid 4 example4 ∧ findUnassignedCell example4 4 = some (some (0, 1)) ∧
      ((findUnassignedCell example4 4 = some none ↔ Complete 4 example4) ∧
        (findUnassignedCell example4 4 = some none ∨
          ∃ r c, findUnassignedCell example4 4 = some (some (r, c))) ∧
        ∀ r c, findUnassignedCell example4 4 = some (some (r, c)) →
          r < 4 ∧ c < 4 ∧ cell example4 r c = 0 ∧
            ∀ i j, i < 4 → j < 4 → Before i j r c → cell example4 i j ≠ 0) :=
  ⟨by decide, by decide, findUnassignedCell_characterisation 4 example4 (by decide)⟩

/-- Claim C18 (no range check in the validator): on the 4 × 4 grid `outOfRange4`,
blank but for one cell holding 5, the presence arrays have length 5 and the
access `check[5]` is out of bounds, in the row and column scan as well as in
the sub-grid scan: `isValidPuzzle` reaches the fault branch and does not
return false. -/
theorem isValidPuzzle_out_of_range_faults :
    IsGrid 4 outOfRange4 ∧ ¬ InRange 4 outOfRange4 ∧
      checkValue (List.replicate (4 + 1) false) 5 = Seen.fault ∧
      isValidRowOrColumn 4 outOfRange4 0 = none ∧
      isValidSubGrid 4 outOfRange4 0 0 2 = none ∧
      isValidPuzzle 4 outOfRange4 = none ∧ isValidPuzzle 4 outOfRange4 ≠ some false :=
  ⟨by decide, by decide, by decide, by decide, by decide, by decide, by decide⟩

end Sudoku
